import Mathlib

/-!
Verification of the agent-workbench streaming relay and state layer.

The JavaScript source is embedded shallowly:
  * byte streams are modelled as lists of characters (`TextDecoder` with
    `stream: true` reassembles split UTF-8 sequences, so chunk boundaries
    at the character level are the faithful abstraction);
  * `JSON.parse` is modelled by an executable recursive-descent parser
    over the JSON grammar (numbers keep their source lexeme: no claim
    depends on floating-point value semantics);
  * callbacks are modelled as events appended to an output trace;
  * the nondeterministic `generateId()` is modelled by an explicit
    fresh-id parameter.
-/

/-- Left brace character, written via its code point. -/
def lbraceChar : Char := Char.ofNat 123

/-- Right brace character, written via its code point. -/
def rbraceChar : Char := Char.ofNat 125

/-- JSON values as produced by `JSON.parse`.  Numbers keep the raw lexeme.
Object fields keep source order; duplicate keys are resolved by
`Json.getField` taking the last occurrence, as `JSON.parse` does. -/
inductive Json where
  | null : Json
  | bool (b : Bool) : Json
  | num (lex : List Char) : Json
  | str (s : List Char) : Json
  | arr (elems : List Json) : Json
  | obj (fields : List (List Char × Json)) : Json

/-- Property lookup (`x.k`): last binding wins, mirroring how a JS object
built by `JSON.parse` retains the final duplicate key.  Non-objects have
no own properties, giving `undefined`, modelled as `none`. -/
def Json.getField (j : Json) (k : List Char) : Option Json :=
  match j with
  | .obj fields =>
    (fields.foldl (fun acc kv => if kv.1 == k then some kv.2 else acc) none)
  | _ => none

/-- JSON whitespace accepted by `JSON.parse` around tokens. -/
def isJsonWs (c : Char) : Bool :=
  c == ' ' || c == '\t' || c == '\n' || c == '\r'

/-- Drop leading JSON whitespace. -/
def skipWs (s : List Char) : List Char := s.dropWhile isJsonWs

/-- Decimal digit test via the code point (48–57). -/
def isDigitCh (c : Char) : Bool := 47 < c.toNat && c.toNat < 58

/-- Longest digit run at the front, with the remainder. -/
def takeDigits (s : List Char) : List Char × List Char :=
  (s.takeWhile isDigitCh, s.dropWhile isDigitCh)

/-- Recognize a JSON number (returning its lexeme and the rest):
`-? (0 | [1-9][0-9]*) (. [0-9]+)? ([eE] [+-]? [0-9]+)?`. -/
def lexNumber (s : List Char) : Option (List Char × List Char) :=
  let (sign, s1) :=
    match s with
    | '-' :: r => (['-'], r)
    | _ => (([] : List Char), s)
  match s1 with
  | [] => none
  | c :: r =>
    if !isDigitCh c then none
    else
      let (intPart, s2) :=
        if c == '0' then ([c], r)
        else
          let (ds, r') := takeDigits r
          (c :: ds, r')
      let (fracPart, s3) :=
        match s2 with
        | '.' :: r2 =>
          match takeDigits r2 with
          | ([], _) => (none, s2)
          | (ds, r3) => (some ('.' :: ds), r3)
        | _ => (none, s2)
      match fracPart with
      | none =>
        if s3 == s2 && (match s2 with | '.' :: _ => true | _ => false) then none
        else
          let (expPart, s4) :=
            match s3 with
            | e :: r2 =>
              if e == 'e' || e == 'E' then
                let (sg, r3) :=
                  match r2 with
                  | '+' :: r4 => (['+'], r4)
                  | '-' :: r4 => (['-'], r4)
                  | _ => (([] : List Char), r2)
                match takeDigits r3 with
                | ([], _) => (none, s3)
                | (ds, r4) => (some (e :: (sg ++ ds)), r4)
              else (none, s3)
            | _ => (none, s3)
          match expPart with
          | none =>
            if (match s3 with | e :: _ => e == 'e' || e == 'E' | _ => false) then none
            else some (sign ++ intPart, s3)
          | some ex => some (sign ++ intPart ++ ex, s4)
      | some fp =>
        let (expPart, s4) :=
          match s3 with
          | e :: r2 =>
            if e == 'e' || e == 'E' then
              let (sg, r3) :=
                match r2 with
                | '+' :: r4 => (['+'], r4)
                | '-' :: r4 => (['-'], r4)
                | _ => (([] : List Char), r2)
              match takeDigits r3 with
              | ([], _) => (none, s3)
              | (ds, r4) => (some (e :: (sg ++ ds)), r4)
            else (none, s3)
          | _ => (none, s3)
        match expPart with
        | none =>
          if (match s3 with | e :: _ => e == 'e' || e == 'E' | _ => false) then none
          else some (sign ++ intPart ++ fp, s3)
        | some ex => some (sign ++ intPart ++ fp ++ ex, s4)

/-- Value of one hex digit, via code points (0-9, a-f, A-F). -/
def hexVal (c : Char) : Option Nat :=
  let n := c.toNat
  if 47 < n && n < 58 then some (n - 48)
  else if 96 < n && n < 103 then some (n - 87)
  else if 64 < n && n < 71 then some (n - 55)
  else none

/-- Parse the body of a JSON string after the opening quote; returns the
decoded characters and the input after the closing quote. -/
def lexStringBody : Nat → List Char → Option (List Char × List Char)
  | 0, _ => none
  | _, [] => none
  | fuel + 1, c :: rest =>
    if c == '"' then some ([], rest)
    else if c == '\\' then
      match rest with
      | [] => none
      | e :: r2 =>
        let simple : Option Char :=
          if e == '"' then some '"'
          else if e == '\\' then some '\\'
          else if e == '/' then some '/'
          else if e == 'b' then some (Char.ofNat 8)
          else if e == 'f' then some (Char.ofNat 12)
          else if e == 'n' then some '\n'
          else if e == 'r' then some '\r'
          else if e == 't' then some '\t'
          else none
        match simple with
        | some ch =>
          match lexStringBody fuel r2 with
          | some (s, r3) => some (ch :: s, r3)
          | none => none
        | none =>
          if e == 'u' then
            match r2 with
            | h1 :: h2 :: h3 :: h4 :: r3 =>
              match hexVal h1, hexVal h2, hexVal h3, hexVal h4 with
              | some a, some b, some cc, some d =>
                let n := ((a * 16 + b) * 16 + cc) * 16 + d
                match lexStringBody fuel r3 with
                | some (s, r4) => some (Char.ofNat n :: s, r4)
                | none => none
              | _, _, _, _ => none
            | _ => none
          else none
    else if c.toNat < 32 then none
    else
      match lexStringBody fuel rest with
      | some (s, r2) => some (c :: s, r2)
      | none => none

mutual

/-- Fuel-based recursive-descent JSON value parser. -/
def parseValue : Nat → List Char → Option (Json × List Char)
  | 0, _ => none
  | fuel + 1, s =>
    match skipWs s with
    | [] => none
    | c :: rest =>
      if c == '"' then
        match lexStringBody (rest.length + 1) rest with
        | some (str, r) => some (.str str, r)
        | none => none
      else if c == lbraceChar then
        parseObjectRest fuel (skipWs rest) true
      else if c == '[' then
        parseArrayRest fuel (skipWs rest) true
      else if c == 't' then
        match rest with
        | 'r' :: 'u' :: 'e' :: r => some (.bool true, r)
        | _ => none
      else if c == 'f' then
        match rest with
        | 'a' :: 'l' :: 's' :: 'e' :: r => some (.bool false, r)
        | _ => none
      else if c == 'n' then
        match rest with
        | 'u' :: 'l' :: 'l' :: r => some (.null, r)
        | _ => none
      else
        match lexNumber (c :: rest) with
        | some (lex, r) => some (.num lex, r)
        | none => none
termination_by structural fuel => fuel

/-- Parse the remainder of an object body.  `first` is true right after
the opening brace (allowing an immediate closing brace). -/
def parseObjectRest : Nat → List Char → Bool → Option (Json × List Char)
  | 0, _, _ => none
  | fuel + 1, s, first =>
    match s with
    | c :: rest =>
      if first && c == rbraceChar then some (.obj [], rest)
      else
        match parseMembers fuel (c :: rest) with
        | some (fields, r) =>
          match skipWs r with
          | c2 :: r2 => if c2 == rbraceChar then some (.obj fields, r2) else none
          | [] => none
        | none => none
    | [] => none
termination_by structural fuel => fuel

/-- Parse one or more `"key": value` members separated by commas. -/
def parseMembers : Nat → List Char → Option (List (List Char × Json) × List Char)
  | 0, _ => none
  | fuel + 1, s =>
    match skipWs s with
    | c :: rest =>
      if c == '"' then
        match lexStringBody (rest.length + 1) rest with
        | some (key, r) =>
          match skipWs r with
          | ':' :: r2 =>
            match parseValue fuel r2 with
            | some (v, r3) =>
              match skipWs r3 with
              | ',' :: r4 =>
                match parseMembers fuel r4 with
                | some (fields, r5) => some ((key, v) :: fields, r5)
                | none => none
              | r4 => some ([(key, v)], r4)
            | none => none
          | _ => none
        | none => none
      else none
    | [] => none
termination_by structural fuel => fuel

/-- Parse the remainder of an array body. -/
def parseArrayRest : Nat → List Char → Bool → Option (Json × List Char)
  | 0, _, _ => none
  | fuel + 1, s, first =>
    match s with
    | c :: rest =>
      if first && c == ']' then some (.arr [], rest)
      else
        match parseElems fuel (c :: rest) with
        | some (elems, r) =>
          match skipWs r with
          | c2 :: r2 => if c2 == ']' then some (.arr elems, r2) else none
          | [] => none
        | none => none
    | [] => none
termination_by structural fuel => fuel

/-- Parse one or more array elements separated by commas. -/
def parseElems : Nat → List Char → Option (List Json × List Char)
  | 0, _ => none
  | fuel + 1, s =>
    match parseValue fuel s with
    | some (v, r) =>
      match skipWs r with
      | ',' :: r2 =>
        match parseElems fuel r2 with
        | some (elems, r3) => some (v :: elems, r3)
        | none => none
      | r2 => some ([v], r2)
    | none => none
termination_by structural fuel => fuel

end

/-- Model of `JSON.parse`: parse a complete value, allowing surrounding
whitespace; any trailing non-whitespace is a syntax error (`none`).  The
fuel only bounds recursion depth; at most four fuel units are spent per
consumed input character, so `4 * length + 4` never runs out. -/
def jsonParse (s : List Char) : Option Json :=
  match parseValue (4 * s.length + 4) s with
  | some (v, rest) => if (skipWs rest).isEmpty then some v else none
  | none => none

example : jsonParse ("\x7b\"type\":\"done\"\x7d").data =
    some (Json.obj [(("type").data, Json.str ("done").data)]) := by rfl

example : jsonParse ("\x7bnot json").data = none := by rfl

example : jsonParse ("[1, \"a\", true, null]").data =
    some (Json.arr [Json.num ['1'], Json.str ['a'], Json.bool true, Json.null]) := by rfl

/-! ### JavaScript value helpers used by the relay code -/

/-- JS truthiness of a value that may be `undefined` (`none`). -/
def numLexIsZero (lex : List Char) : Bool :=
  (lex.takeWhile (fun c => !(c == 'e' || c == 'E'))).all
    (fun c => !isDigitCh c || c == '0')

/-- Truthiness test (`if (x)`): `undefined`, `null`, `false`, `0`, `""`
are falsy; every object and array is truthy. -/
def jsTruthy : Option Json → Bool
  | none => false
  | some .null => false
  | some (.bool b) => b
  | some (.num lex) => !numLexIsZero lex
  | some (.str s) => !s.isEmpty
  | some (.arr _) => true
  | some (.obj _) => true

/-- Characters removed by `String.prototype.trim` (ASCII whitespace plus
NBSP and BOM; other rare Unicode space characters never occur in the
streams handled here). -/
def isJsTrimWs (c : Char) : Bool :=
  c == ' ' || c == '\t' || c == '\n' || c == '\r' ||
  c == Char.ofNat 11 || c == Char.ofNat 12 || c == Char.ofNat 160 ||
  c == Char.ofNat 65279

/-- Model of `String.prototype.trim`. -/
def jsTrim (s : List Char) : List Char :=
  ((s.dropWhile isJsTrimWs).reverse.dropWhile isJsTrimWs).reverse

/-- Model of `a || b` (JS logical-or used for defaulting). -/
def jsOrJson (x : Option Json) (fallback : Json) : Json :=
  if jsTruthy x then x.getD Json.null else fallback

/-- Optional member access `x?.k`. -/
def jsOptMember (v : Option Json) (k : List Char) : Option Json :=
  v.bind (fun j => j.getField k)

/-- Optional index access `x?.[0]`: element 0 of an array, property "0"
of an object, first character of a string; `undefined` otherwise. -/
def jsIndexZero (v : Option Json) : Option Json :=
  match v with
  | some (.arr (x :: _)) => some x
  | some (.obj fields) => Json.getField (.obj fields) ['0']
  | some (.str (c :: _)) => some (.str [c])
  | _ => none

mutual

/-- String coercion applied by `+` / template literals.  For numbers the
source lexeme stands in for JS number formatting, and arrays render as
their comma-joined elements; no claim depends on these renderings. -/
def jsToStr : Json → List Char
  | .null => ("null").data
  | .bool true => ("true").data
  | .bool false => ("false").data
  | .num lex => lex
  | .str s => s
  | .arr l => jsToStrList l
  | .obj _ => ("[object Object]").data

def jsToStrList : List Json → List Char
  | [] => []
  | [x] => jsToStr x
  | x :: y :: xs => jsToStr x ++ ',' :: jsToStrList (y :: xs)

end

def hexDigitCh (n : Nat) : Char :=
  if n < 10 then Char.ofNat ('0'.toNat + n) else Char.ofNat ('a'.toNat + n - 10)

/-- Escaping of one character inside a `JSON.stringify` string. -/
def escJsonChar (c : Char) : List Char :=
  if c == '"' then ['\\', '"']
  else if c == '\\' then ['\\', '\\']
  else if c == '\n' then ['\\', 'n']
  else if c == '\r' then ['\\', 'r']
  else if c == '\t' then ['\\', 't']
  else if c == Char.ofNat 8 then ['\\', 'b']
  else if c == Char.ofNat 12 then ['\\', 'f']
  else if c.toNat < 32 then
    ['\\', 'u', '0', '0', hexDigitCh (c.toNat / 16), hexDigitCh (c.toNat % 16)]
  else [c]

def renderJsonStr (s : List Char) : List Char :=
  '"' :: (s.map escJsonChar).flatten ++ ['"']

mutual

/-- Model of `JSON.stringify` (numbers keep their lexeme, see above). -/
def jsonStringify : Json → List Char
  | .null => ("null").data
  | .bool true => ("true").data
  | .bool false => ("false").data
  | .num lex => lex
  | .str s => renderJsonStr s
  | .arr l => '[' :: jsonStringifyElems l ++ [']']
  | .obj fields => lbraceChar :: jsonStringifyFields fields ++ [rbraceChar]

def jsonStringifyElems : List Json → List Char
  | [] => []
  | [x] => jsonStringify x
  | x :: y :: xs => jsonStringify x ++ ',' :: jsonStringifyElems (y :: xs)

def jsonStringifyFields : List (List Char × Json) → List Char
  | [] => []
  | [kv] => renderJsonStr kv.1 ++ ':' :: jsonStringify kv.2
  | kv :: kv2 :: xs =>
    renderJsonStr kv.1 ++ ':' :: jsonStringify kv.2 ++ ',' :: jsonStringifyFields (kv2 :: xs)

end

/-- Coercion of a possibly-`undefined` value, as `'' + x` would do. -/
def jsToStrOpt : Option Json → List Char
  | none => ("undefined").data
  | some j => jsToStr j

/-! ### Line splitting shared by every decoder loop

Each loop keeps a carry-over `buffer`, appends the incoming chunk,
splits on line feeds, holds the final fragment back and processes the
complete lines: `buffer += text; lines = buffer.split('\n');
buffer = lines.pop();`. -/

/-- Model of `String.prototype.split('\n')`; the result is never empty
(`"".split('\n')` is `[""]`). -/
def splitNl : List Char → List (List Char)
  | [] => [[]]
  | c :: rest =>
    if c = '\n' then [] :: splitNl rest
    else (c :: (splitNl rest).headI) :: (splitNl rest).tail

theorem splitNl_ne_nil (s : List Char) : splitNl s ≠ [] := by
  cases s with
  | nil => simp [splitNl]
  | cons c rest =>
    by_cases hc : c = '\n' <;> simp [splitNl, hc]

example : splitNl ("a\nbb\n\nc").data = [['a'], ['b', 'b'], [], ['c']] := by rfl
example : splitNl [] = [[]] := by rfl

/-! ### Event-stream decoder, normalized vocabulary (`readSSE`, api.js)

`readSSE` reads chunks, maintains a text buffer, processes complete
lines with the `"data: "` tag, dispatches on the parsed `type` field and
invokes the matching callback; after the stream closes it invokes
`onDone` once more ("if stream ends without explicit done event"). -/

/-- Callback invocations of `readSSE`, in order. -/
inductive SSEvt where
  | delta (v : Option Json)
  | content (v : Option Json)
  | error (v : Option Json)
  | done

def dataTag : List Char := ("data: ").data

/-- Model of `line.startsWith('data: ')`. -/
def hasDataTag (line : List Char) : Bool := line.take 6 == dataTag

def keyType : List Char := ("type").data
def keyDelta : List Char := ("delta").data
def keyContent : List Char := ("content").data
def keyError : List Char := ("error").data
def keyId : List Char := ("id").data
def keyUsage : List Char := ("usage").data
def keyChoices : List Char := ("choices").data
def keyMessage : List Char := ("message").data

/-- Dispatch on `chunk.type` as the `switch` in `readSSE` does; a chunk
whose `type` is not one of the four strings produces no callback. -/
def handleSSEJson (j : Json) : Option SSEvt :=
  match j.getField keyType with
  | some (.str t) =>
    if t = ("text_delta").data then some (.delta (j.getField keyDelta))
    else if t = ("content").data then some (.content (j.getField keyContent))
    else if t = ("error").data then some (.error (j.getField keyError))
    else if t = ("done").data then some .done
    else none
  | _ => none

/-- One complete line of `readSSE`: skip lines without the tag, parse
`line.slice(6)` as JSON (a parse failure is silently skipped), then
dispatch. -/
def handleSSELine (line : List Char) : Option SSEvt :=
  if hasDataTag line then
    match jsonParse (line.drop 6) with
    | some j => handleSSEJson j
    | none => none
  else none

/-- One chunk of `readSSE`: append to the buffer, split on line feeds,
hold the last fragment back, process the complete lines. -/
def sseChunk (st : List Char × List SSEvt) (chunk : List Char) :
    List Char × List SSEvt :=
  ((splitNl (st.1 ++ chunk)).getLastD [],
   st.2 ++ ((splitNl (st.1 ++ chunk)).dropLast).filterMap handleSSELine)

/-- The read loop of `readSSE` over a finite list of chunks. -/
def readSSERun (chunks : List (List Char)) : List Char × List SSEvt :=
  chunks.foldl sseChunk ([], [])

/-- Full callback trace of `readSSE`: the decoded events followed by the
unconditional `onDone` after the stream closes. -/
def readSSE (chunks : List (List Char)) : List SSEvt :=
  (readSSERun chunks).2 ++ [.done]

/-! ### Event-stream decoder, provider vocabulary (`readOpenRouterSSE`) -/

/-- Callback invocations of `readOpenRouterSSE`, in order. -/
inductive OREvt where
  | delta (v : Json)
  | error (v : Json)
  | content (s : List Char)
  | usage (genId : Json) (u : Option Json)
  | done

/-- Loop state of `readOpenRouterSSE` except the line buffer:
accumulated text, generation id, usage record, whether the function has
returned early (embedded error), and the emitted callback trace. -/
structure ORCore where
  fullText : List Char
  genId : Json
  usage : Option Json
  term : Bool
  out : List OREvt

def orInit : ORCore := ⟨[], Json.str [], none, false, []⟩

def doneSentinel : List Char := ("[DONE]").data

/-- One complete line of `readOpenRouterSSE`: skip non-`data: ` lines,
trim the payload, skip the `[DONE]` sentinel and unparsable payloads; an
embedded `error` object invokes `onError` and returns (terminal); else
record `id` and `usage` when present and emit a delta when
`chunk.choices?.[0]?.delta?.content` is truthy. -/
def orLine (c : ORCore) (line : List Char) : ORCore :=
  if c.term then c
  else if !hasDataTag line then c
  else
    let d := jsTrim (line.drop 6)
    if d = doneSentinel then c
    else
      match jsonParse d with
      | none => c
      | some chunk =>
        if jsTruthy (chunk.getField keyError) then
          let e := (chunk.getField keyError).getD Json.null
          let payload := jsOrJson (e.getField keyMessage) (Json.str (jsonStringify e))
          { c with term := true, out := c.out ++ [OREvt.error payload] }
        else
          let c1 :=
            if jsTruthy (chunk.getField keyId) then
              { c with genId := (chunk.getField keyId).getD Json.null }
            else c
          let c2 :=
            if jsTruthy (chunk.getField keyUsage) then
              { c1 with usage := chunk.getField keyUsage }
            else c1
          let dlt := jsOptMember (jsOptMember (jsIndexZero (chunk.getField keyChoices)) keyDelta) keyContent
          if jsTruthy dlt then
            let dv := dlt.getD Json.null
            { c2 with fullText := c2.fullText ++ jsToStr dv,
                      out := c2.out ++ [OREvt.delta dv] }
          else c2

/-- One chunk of the `readOpenRouterSSE` read loop; once the function
has returned early no further chunk is read. -/
def orChunk (st : List Char × ORCore) (chunk : List Char) :
    List Char × ORCore :=
  if st.2.term then st
  else
    ((splitNl (st.1 ++ chunk)).getLastD [],
     ((splitNl (st.1 ++ chunk)).dropLast).foldl orLine st.2)

/-- After the loop: unless the function returned early on an embedded
error, it emits `onContent(fullText)`, `onUsage({generationId, usage})`
and `onDone()`. -/
def orFinal (c : ORCore) : List OREvt :=
  if c.term then c.out
  else c.out ++ [OREvt.content c.fullText, OREvt.usage c.genId c.usage, OREvt.done]

/-- Full callback trace of `readOpenRouterSSE` over a chunk list. -/
def readOpenRouterSSE (chunks : List (List Char)) : List OREvt :=
  orFinal (chunks.foldl orChunk ([], orInit)).2

example :
    (readSSERun [("data: \x7b\"type\":\"done\"\x7d\n").data]).2 = [SSEvt.done] := by rfl

example :
    readSSE [("data: \x7b\"type\":\"text_delta\",\"delta\":\"hi\"\x7d\n").data] =
      [SSEvt.delta (some (Json.str ('h' :: ['i']))), SSEvt.done] := by rfl

/-! ### Chunk-boundary algebra of the line splitter -/

theorem getLastD_append_right {α : Type} (A B : List α) (d : α) (h : B ≠ []) :
    (A ++ B).getLastD d = B.getLastD d := by
  rcases List.exists_cons_of_ne_nil h with ⟨b, t, rfl⟩
  have hs : ((b :: t).getLast?).isSome := by
    rw [List.getLast?_isSome]; exact List.cons_ne_nil b t
  rcases Option.isSome_iff_exists.mp hs with ⟨x, hx⟩
  simp [List.getLastD_eq_getLast?, List.getLast?_append, hx]

theorem dropLast_append_right {α : Type} (A B : List α) (h : B ≠ []) :
    (A ++ B).dropLast = A ++ B.dropLast := by
  rcases List.exists_cons_of_ne_nil h with ⟨b, t, rfl⟩
  simp [List.dropLast_append]

theorem splitNl_cons_nl (rest : List Char) :
    splitNl ('\n' :: rest) = [] :: splitNl rest := by
  simp [splitNl]

theorem splitNl_cons_other {c : Char} (rest : List Char) (hc : ¬c = '\n') :
    splitNl (c :: rest) = (c :: (splitNl rest).headI) :: (splitNl rest).tail := by
  simp [splitNl, hc]

/-- Splitting `x ++ y` is splitting `x`, then splitting the held-back
fragment of `x` glued onto `y`: exactly the decoder's reassembly
discipline. -/
theorem splitNl_append (x y : List Char) :
    splitNl (x ++ y) =
      (splitNl x).dropLast ++ splitNl ((splitNl x).getLastD [] ++ y) := by
  induction x with
  | nil => simp [splitNl]
  | cons c x ih =>
    by_cases hc : c = '\n'
    · subst hc
      have hne := splitNl_ne_nil x
      rw [List.cons_append, splitNl_cons_nl, splitNl_cons_nl, ih]
      rw [show ([] :: splitNl x : List (List Char)) = [[]] ++ splitNl x from rfl]
      rw [dropLast_append_right [[]] (splitNl x) hne,
          getLastD_append_right [[]] (splitNl x) [] hne]
      simp
    · have hne := splitNl_ne_nil x
      rw [List.cons_append, splitNl_cons_other (x ++ y) hc, splitNl_cons_other x hc, ih]
      rcases hls : splitNl x with _ | ⟨l1, t⟩
      · exact absurd hls hne
      · rcases t with _ | ⟨l2, t2⟩
        · -- single fragment: the whole of `x` is carried over
          simp [splitNl_cons_other ((l1 : List Char) ++ y) hc, List.cons_append]
        · -- at least one complete line in `x`
          have hne2 : (l2 :: t2 : List (List Char)) ≠ [] := List.cons_ne_nil l2 t2
          rw [show (l1 :: l2 :: t2 : List (List Char)) = [l1] ++ (l2 :: t2) from rfl]
          rw [dropLast_append_right [l1] (l2 :: t2) hne2,
              getLastD_append_right [l1] (l2 :: t2) [] hne2]
          have hS := splitNl_ne_nil ((l2 :: t2).getLastD [] ++ y)
          rcases hSx : splitNl ((l2 :: t2).getLastD [] ++ y) with _ | ⟨s1, st⟩
          · exact absurd hSx hS
          · simp only [List.getLastD_eq_getLast?] at hSx
            simp [hSx]

/-- Processing chunk `x` then chunk `y` equals processing `x ++ y` in
one go, for the normalized decoder. -/
theorem sseChunk_append (st : List Char × List SSEvt) (x y : List Char) :
    sseChunk (sseChunk st x) y = sseChunk st (x ++ y) := by
  have h2 := splitNl_ne_nil ((splitNl (st.1 ++ x)).getLastD [] ++ y)
  simp only [sseChunk]
  rw [← List.append_assoc, splitNl_append (st.1 ++ x) y]
  rw [getLastD_append_right _ _ _ h2, dropLast_append_right _ _ h2]
  rw [List.filterMap_append, List.append_assoc]

theorem readSSERun_cons (c : List Char) (cs : List (List Char))
    (st : List Char × List SSEvt) :
    List.foldl sseChunk st (c :: cs) = sseChunk st (c ++ cs.flatten) := by
  induction cs generalizing c st with
  | nil => simp
  | cons c2 cs ih =>
    rw [List.foldl_cons, ih c2 (sseChunk st c), sseChunk_append]
    simp

/-- `orLine` ignores every line after the early return. -/
theorem orLine_term (c : ORCore) (l : List Char) (h : c.term = true) :
    orLine c l = c := by
  simp [orLine, h]

theorem orFoldl_term (L : List (List Char)) (c : ORCore) (h : c.term = true) :
    L.foldl orLine c = c := by
  induction L with
  | nil => rfl
  | cons l L ih => rw [List.foldl_cons, orLine_term c l h, ih]

/-- `orLine` never resets the early-return flag. -/
theorem orLine_term_mono (c : ORCore) (l : List Char) (h : c.term = true) :
    (orLine c l).term = true := by
  rw [orLine_term c l h]; exact h

/-- Chunk composition for the provider-native decoder: the loop state
other than the line buffer is the same whether `x` and `y` arrive
separately or as one chunk. -/
theorem orChunk_append (st : List Char × ORCore) (x y : List Char) :
    (orChunk (orChunk st x) y).2 = (orChunk st (x ++ y)).2 := by
  by_cases h : st.2.term
  · simp [orChunk, h]
  · have h2 := splitNl_ne_nil ((splitNl (st.1 ++ x)).getLastD [] ++ y)
    simp only [orChunk, if_neg h]
    rw [← List.append_assoc, splitNl_append (st.1 ++ x) y,
        dropLast_append_right _ _ h2, List.foldl_append]
    by_cases h1 : ((splitNl (st.1 ++ x)).dropLast.foldl orLine st.2).term
    · rw [if_pos h1, orFoldl_term _ _ h1]
    · rw [if_neg h1]

theorem orRun_cons (c : List Char) (cs : List (List Char))
    (st : List Char × ORCore) :
    (List.foldl orChunk st (c :: cs)).2 = (orChunk st (c ++ cs.flatten)).2 := by
  induction cs generalizing c st with
  | nil => simp
  | cons c2 cs ih =>
    rw [List.foldl_cons, ih c2 (orChunk st c), orChunk_append]
    simp

/-- C1.  Chunk-split invariance of the Event-Stream Decoder: for every
finite stream and every partition of it into chunks, `readSSE`
(normalized vocabulary) and `readOpenRouterSSE` (provider-native
vocabulary) produce exactly the same sequence of decoded events and
callback invocations as decoding the same bytes delivered as a single
chunk. -/
theorem claim_C1_chunk_split_invariance (chunks : List (List Char)) :
    readSSE chunks = readSSE [chunks.flatten] ∧
    readOpenRouterSSE chunks = readOpenRouterSSE [chunks.flatten] := by
  cases chunks with
  | nil => exact ⟨rfl, rfl⟩
  | cons c cs =>
    constructor
    · simp only [readSSE, readSSERun]
      rw [readSSERun_cons c cs ([], []),
          readSSERun_cons (List.flatten (c :: cs)) [] ([], [])]
      simp
    · simp only [readOpenRouterSSE]
      rw [orRun_cons c cs ([], orInit),
          orRun_cons (List.flatten (c :: cs)) [] ([], orInit)]
      simp

/-- C2.  Malformed-line tolerance: a `data: `-tagged line whose payload
is not valid JSON produces no event, is skipped without terminating
decoding (in both decoders), and every other well-formed line still
produces its event; concretely, `data: {not json` followed by
`data: {"type":"done"}` decodes to exactly one `done` event. -/
theorem claim_C2_malformed_line_tolerance
    (line : List Char) (pre post : List (List Char)) (c : ORCore)
    (htag : hasDataTag line = true)
    (hbad : jsonParse (line.drop 6) = none)
    (hbadTrim : jsonParse (jsTrim (line.drop 6)) = none) :
    handleSSELine line = none ∧
    (pre ++ line :: post).filterMap handleSSELine =
      (pre ++ post).filterMap handleSSELine ∧
    orLine c line = c ∧
    (readSSERun [("data: \x7bnot json\ndata: \x7b\"type\":\"done\"\x7d\n").data]).2 =
      [SSEvt.done] := by
  have hnone : handleSSELine line = none := by
    simp [handleSSELine, htag, hbad]
  refine ⟨hnone, ?_, ?_, by rfl⟩
  · rw [List.filterMap_append, List.filterMap_append, List.filterMap_cons, hnone]
  · by_cases hterm : c.term
    · simp [orLine, hterm]
    · simp [orLine, hterm, htag, hbadTrim]

/-- Witness for C2 at the spec's own example line. -/
theorem claim_C2_witness :
    handleSSELine (("data: \x7bnot json").data) = none ∧
    ([] ++ ("data: \x7bnot json").data :: [("data: \x7b\"type\":\"done\"\x7d").data]).filterMap
        handleSSELine =
      ([] ++ [("data: \x7b\"type\":\"done\"\x7d").data]).filterMap handleSSELine ∧
    orLine orInit (("data: \x7bnot json").data) = orInit ∧
    (readSSERun [("data: \x7bnot json\ndata: \x7b\"type\":\"done\"\x7d\n").data]).2 =
      [SSEvt.done] :=
  claim_C2_malformed_line_tolerance (("data: \x7bnot json").data) []
    [("data: \x7b\"type\":\"done\"\x7d").data] orInit (by rfl) (by rfl) (by rfl)

/-! ### Terminality of the error callback -/

/-- Whether every error in the trace is at the very end (so nothing at
all follows an error callback, and there is at most one). -/
def errorIsTerminal {α : Type} (isErr : α → Bool) (l : List α) : Bool :=
  match l.dropWhile (fun e => !isErr e) with
  | [] => true
  | [_] => true
  | _ => false

def sseIsError : SSEvt → Bool
  | .error _ => true
  | _ => false

def orIsError : OREvt → Bool
  | .error _ => true
  | _ => false

theorem errorIsTerminal_of_all {α : Type} (isErr : α → Bool) (l : List α)
    (h : l.all (fun e => !isErr e) = true) : errorIsTerminal isErr l = true := by
  have hd : l.dropWhile (fun e => !isErr e) = [] := by
    rw [List.dropWhile_eq_nil_iff]
    intro x hx
    exact (List.all_eq_true.mp h) x hx
  unfold errorIsTerminal
  rw [hd]

theorem errorIsTerminal_append_error {α : Type} (isErr : α → Bool)
    (l : List α) (e : α)
    (h : l.all (fun x => !isErr x) = true) (he : isErr e = true) :
    errorIsTerminal isErr (l ++ [e]) = true := by
  have hd : l.dropWhile (fun x => !isErr x) = [] := by
    rw [List.dropWhile_eq_nil_iff]
    intro x hx
    exact (List.all_eq_true.mp h) x hx
  unfold errorIsTerminal
  rw [List.dropWhile_append, hd]
  simp [List.dropWhile, he]

/-- Invariant of the `readOpenRouterSSE` loop: before the early return
the trace has no error callback; after it the error is the last entry. -/
def orTraceOk (c : ORCore) : Bool :=
  if c.term then errorIsTerminal orIsError c.out
  else c.out.all (fun e => !orIsError e)

theorem orLine_ok (c : ORCore) (l : List Char) (h : orTraceOk c = true) :
    orTraceOk (orLine c l) = true := by
  by_cases hterm : c.term = true
  · rw [orLine_term c l hterm]; exact h
  · have hall : c.out.all (fun e => !orIsError e) = true := by
      unfold orTraceOk at h
      rw [if_neg hterm] at h; exact h
    have htermf : c.term = false := by
      revert hterm; cases c.term <;> simp
    unfold orLine
    rw [htermf]
    simp only [Bool.false_eq_true, if_false]
    by_cases htag : hasDataTag l = true
    · rw [htag]
      simp only [Bool.not_true, Bool.false_eq_true, if_false]
      by_cases hdone : jsTrim (l.drop 6) = doneSentinel
      · rw [if_pos hdone]; exact h
      · rw [if_neg hdone]
        cases hp : jsonParse (jsTrim (l.drop 6)) with
        | none => exact h
        | some chunk =>
          dsimp only
          by_cases herr : jsTruthy (chunk.getField keyError) = true
          · rw [if_pos herr]
            unfold orTraceOk
            simp only [if_pos rfl]
            exact errorIsTerminal_append_error orIsError c.out _ hall rfl
          · rw [if_neg herr]
            by_cases hid : jsTruthy (chunk.getField keyId) = true <;>
              by_cases husage : jsTruthy (chunk.getField keyUsage) = true <;>
                by_cases hdlt :
                  jsTruthy (jsOptMember (jsOptMember
                    (jsIndexZero (chunk.getField keyChoices)) keyDelta) keyContent) = true <;>
              (simp [hid, husage, hdlt, orTraceOk, htermf, hall] <;> rfl)
    · have htagf : hasDataTag l = false := by
        revert htag; cases hasDataTag l <;> simp
      rw [htagf]
      simp only [Bool.not_false, if_true]
      exact h

theorem orFoldl_ok (L : List (List Char)) (c : ORCore)
    (h : orTraceOk c = true) : orTraceOk (L.foldl orLine c) = true := by
  induction L generalizing c with
  | nil => exact h
  | cons l L ih => exact ih (orLine c l) (orLine_ok c l h)

theorem orChunk_ok (st : List Char × ORCore) (chunk : List Char)
    (h : orTraceOk st.2 = true) : orTraceOk (orChunk st chunk).2 = true := by
  unfold orChunk
  by_cases hterm : st.2.term = true
  · rw [if_pos hterm]; exact h
  · rw [if_neg hterm]
    exact orFoldl_ok _ _ h

theorem orRun_ok (chunks : List (List Char)) (st : List Char × ORCore)
    (h : orTraceOk st.2 = true) :
    orTraceOk (chunks.foldl orChunk st).2 = true := by
  induction chunks generalizing st with
  | nil => exact h
  | cons c cs ih => exact ih (orChunk st c) (orChunk_ok st c h)

/-- C3 counterexample: in `readSSE` an embedded error event is not
terminal — at this concrete input the error callback is followed by a
delta callback and the implicit done callback. -/
theorem claim_C3_counterexample :
    errorIsTerminal sseIsError
      (readSSE [("data: \x7b\"type\":\"error\",\"error\":\"boom\"\x7d\ndata: \x7b\"type\":\"text_delta\",\"delta\":\"x\"\x7d\n").data]) =
      false := by rfl

/-- C3 amended: in `readOpenRouterSSE` an embedded error object is
terminal — `onError` fires at most once and nothing follows it; in
`readSSE`, by contrast, an error event does not stop processing and
every run still ends with the implicit `onDone` at stream close. -/
theorem claim_C3_amended_error_terminality (chunks : List (List Char)) :
    errorIsTerminal orIsError (readOpenRouterSSE chunks) = true ∧
    (readSSE chunks).getLast? = some SSEvt.done := by
  constructor
  · have hok : orTraceOk (chunks.foldl orChunk ([], orInit)).2 = true :=
      orRun_ok chunks ([], orInit) (by rfl)
    unfold readOpenRouterSSE orFinal
    set c := (chunks.foldl orChunk ([], orInit)).2 with hc
    by_cases hterm : c.term = true
    · rw [if_pos hterm]
      unfold orTraceOk at hok
      rw [if_pos hterm] at hok
      exact hok
    · rw [if_neg hterm]
      unfold orTraceOk at hok
      rw [if_neg hterm] at hok
      apply errorIsTerminal_of_all
      rw [List.all_append, hok]
      rfl
  · unfold readSSE
    simp

/-! ### Consumer-visible done (app.js `doneFired` guard) -/

def isDoneEvt : SSEvt → Bool
  | .done => true
  | _ => false

/-- One relay callback as seen by the consumer's `onDone` handler:
`if (doneFired) return; doneFired = true;` then the body runs once. -/
def doneStep (st : Bool × Nat) (e : SSEvt) : Bool × Nat :=
  match e with
  | .done => if st.1 then st else (true, st.2 + 1)
  | _ => st

/-- How many times the consumer's `onDone` body runs over a callback
trace (`doneFired` is reset to false when a generation starts). -/
def guardedDoneCount (evs : List SSEvt) : Nat :=
  (evs.foldl doneStep (false, 0)).2

theorem doneStep_foldl (evs : List SSEvt) (f : Bool) (n : Nat) :
    evs.foldl doneStep (f, n) =
      (f || evs.any isDoneEvt,
       n + if f then 0 else if evs.any isDoneEvt then 1 else 0) := by
  induction evs generalizing f n with
  | nil => simp
  | cons e evs ih =>
    cases e with
    | done =>
      cases f with
      | true => simp [doneStep, ih, isDoneEvt]
      | false => simp [doneStep, ih, isDoneEvt]
    | delta v => simpa [doneStep, isDoneEvt] using ih f n
    | content v => simpa [doneStep, isDoneEvt] using ih f n
    | error v => simpa [doneStep, isDoneEvt] using ih f n

/-- C4.  The consumer-visible `onDone` fires exactly once for every
stream handled by `readSSE`: the decoder invokes the callback for an
explicit `done` event and once more at natural stream closure, and the
consumer's `doneFired` guard collapses these to exactly one. -/
theorem claim_C4_done_fires_exactly_once (chunks : List (List Char)) :
    guardedDoneCount (readSSE chunks) = 1 := by
  unfold guardedDoneCount readSSE
  rw [List.foldl_append, doneStep_foldl (readSSERun chunks).2 false 0]
  cases h : (readSSERun chunks).2.any isDoneEvt <;>
    simp [h, doneStep]

/-! ### Cancellation path of `generate` (api.js) -/

/-- The `.catch` handler of `generate`: an `AbortError` returns without
invoking any callback; any other rejection invokes `onError` with the
message. -/
def jsCatchCallbacks (errName errMsg : List Char) : List SSEvt :=
  if errName = ("AbortError").data then []
  else [SSEvt.error (some (Json.str errMsg))]

/-- A cancelled generation: after `processed` chunks were decoded, the
abort signal makes the pending `fetch`/`reader.read()` reject with an
`AbortError`, which skips `readSSE`'s trailing implicit `onDone` and
lands in the catch handler. -/
def generateCancelled (processed : List (List Char)) (errMsg : List Char) :
    List SSEvt :=
  (readSSERun processed).2 ++ jsCatchCallbacks ("AbortError").data errMsg

/-- The consumer's per-callback update of the streamed message content
(app.js): `onDelta` appends, `onContent` replaces when truthy,
`onError` replaces with an error marker, `onDone` leaves it. -/
def consumerContentStep (acc : List Char) (e : SSEvt) : List Char :=
  match e with
  | .delta v => acc ++ jsToStrOpt v
  | .content v => if jsTruthy v then jsToStrOpt v else acc
  | .error v => ("**Error:** ").data ++ jsToStrOpt v
  | .done => acc

def consumerFinalContent (evs : List SSEvt) : List Char :=
  evs.foldl consumerContentStep []

/-- C5.  Cancellation is silent: aborting before or during streaming
adds no callback at all — in particular it never invokes `onError` —
and the partial text already delivered via `onDelta` stays as the final
in-memory state. -/
theorem claim_C5_cancellation_silent (processed : List (List Char))
    (errMsg : List Char) :
    generateCancelled processed errMsg = (readSSERun processed).2 ∧
    consumerFinalContent (generateCancelled processed errMsg) =
      consumerFinalContent (readSSERun processed).2 ∧
    jsCatchCallbacks ("AbortError").data errMsg = [] := by
  have h : jsCatchCallbacks ("AbortError").data errMsg = [] := by
    simp [jsCatchCallbacks]
  have h2 : generateCancelled processed errMsg = (readSSERun processed).2 := by
    unfold generateCancelled
    rw [h, List.append_nil]
  exact ⟨h2, by rw [h2], h⟩

/-! ### Agent state manager (state.js)

The module-level mutable state of state.js is an explicit record.  The
nondeterministic `generateId()` is modelled by passing the generated id
as a parameter.  `writes` records the arguments of the `persistAgent`
calls (the durable per-agent writes), in order. -/

structure Msg where
  role : List Char
  content : List Char
  images : List (List Char)
deriving DecidableEq

structure Agent where
  id : List Char
  name : List Char
  model : List Char
  systemPrompt : List Char
  messages : List Msg
deriving DecidableEq

/-- `makeAgent(name)` with the generated id made explicit;
`name || 'Agent'` defaults a falsy (empty) name. -/
def makeAgent (fresh : List Char) (name : List Char) : Agent :=
  { id := fresh
    name := if name.isEmpty then ("Agent").data else name
    model := []
    systemPrompt := []
    messages := [] }

/-- An `updateCurrentAgent` patch: the fields the app ever passes to
`Object.assign(agent, patch)`.  A present field overwrites. -/
structure Patch where
  name : Option (List Char)
  model : Option (List Char)
  systemPrompt : Option (List Char)
  messages : Option (List Msg)
deriving DecidableEq

def applyPatch (a : Agent) (p : Patch) : Agent :=
  { a with
    name := p.name.getD a.name
    model := p.model.getD a.model
    systemPrompt := p.systemPrompt.getD a.systemPrompt
    messages := p.messages.getD a.messages }

structure WBState where
  agents : List Agent
  currentId : Option (List Char)
  saveTimer : Bool
  pendingAgent : Option Agent
  writes : List Agent
deriving DecidableEq

/-- `agents.find(a => a.id === currentId) || agents[0]`. -/
def getCurrentAgent (st : WBState) : Option Agent :=
  match st.agents.find? (fun a => st.currentId == some a.id) with
  | some a => some a
  | none => st.agents.head?

/-- Index of the object `getCurrentAgent` aliases inside the list (the
first id match, or position 0 for the `agents[0]` fallback); the
JavaScript `Object.assign` mutates the list element in place there. -/
def currentAgentIdx (st : WBState) : Nat :=
  match st.agents.findIdx? (fun a => st.currentId == some a.id) with
  | some i => i
  | none => 0

/-- `updateCurrentAgent(patch)`: return if there is no current agent;
otherwise merge the patch in memory, remember the agent in the pending
slot and make sure a debounce timer is scheduled (`if (!saveTimer)`
keeps an already-running timer). -/
def updateCurrentAgent (p : Patch) (st : WBState) : WBState :=
  match getCurrentAgent st with
  | none => st
  | some agent =>
    { st with
      agents := st.agents.set (currentAgentIdx st) (applyPatch agent p)
      pendingAgent := some (applyPatch agent p)
      saveTimer := true }

/-- The debounce timer fires: write the pending agent (if any), clear
the slot, clear the timer. -/
def timerFire (st : WBState) : WBState :=
  if st.saveTimer then
    { st with
      writes := st.writes ++ (match st.pendingAgent with
        | some a => [a]
        | none => [])
      pendingAgent := none
      saveTimer := false }
  else st

/-- `flushPendingWrite()`: cancel the timer and write any pending agent
immediately. -/
def flushPendingWrite (st : WBState) : WBState :=
  { st with
    saveTimer := false
    writes := st.writes ++ (match st.pendingAgent with
      | some a => [a]
      | none => [])
    pendingAgent := none }

/-- `createAgent(name?)`: new agent (default name `Agent ${n}`),
appended and made current, persisted immediately. -/
def createAgent (fresh : List Char) (name : List Char) (st : WBState) :
    WBState :=
  let nm := if name.isEmpty
    then ("Agent ").data ++ (Nat.repr (st.agents.length + 1)).data
    else name
  let agent := makeAgent fresh nm
  { st with
    agents := st.agents ++ [agent]
    currentId := some agent.id
    writes := st.writes ++ [agent] }

/-- `deleteAgent(id)`: splice the agent out; move `currentId` to the
new first agent when the deleted one was current; if the list became
empty, atomically create a fresh `Agent 1` and make it current. -/
def deleteAgent (fresh : List Char) (id : List Char) (st : WBState) :
    WBState :=
  match st.agents.findIdx? (fun a => a.id == id) with
  | none => st
  | some i =>
    let ags := st.agents.eraseIdx i
    let cur := if st.currentId == some id
      then ags.head?.map (fun a => a.id)
      else st.currentId
    if ags.isEmpty then
      let agent := makeAgent fresh (("Agent 1").data)
      { st with
        agents := [agent]
        currentId := some agent.id
        writes := st.writes ++ [agent] }
    else { st with agents := ags, currentId := cur }

/-- `duplicateAgent(id)`: deep copy under a new id and a name suffixed
with a copy marker; appended, made current, persisted immediately. -/
def duplicateAgent (fresh : List Char) (id : List Char) (st : WBState) :
    WBState :=
  match st.agents.find? (fun a => a.id == id) with
  | none => st
  | some src =>
    let copy := { makeAgent fresh (src.name ++ (" (copy)").data) with
      model := src.model
      systemPrompt := src.systemPrompt
      messages := src.messages }
    { st with
      agents := st.agents ++ [copy]
      currentId := some copy.id
      writes := st.writes ++ [copy] }

/-- `renameAgent(id, name)`: in-place rename, persisted immediately. -/
def renameAgent (id : List Char) (name : List Char) (st : WBState) :
    WBState :=
  match st.agents.findIdx? (fun a => a.id == id) with
  | none => st
  | some i =>
    match st.agents[i]? with
    | none => st
    | some a =>
      { st with
        agents := st.agents.set i { a with name := name }
        writes := st.writes ++ [{ a with name := name }] }

/-- `setCurrentAgent(id)`: no-op for an unknown id. -/
def setCurrentAgent (id : List Char) (st : WBState) : WBState :=
  if (st.agents.find? (fun a => a.id == id)).isSome then
    { st with currentId := some id }
  else st

def applyPatches (ps : List Patch) (st : WBState) : WBState :=
  ps.foldl (fun s p => updateCurrentAgent p s) st

/-! ### Facts about the current-agent alias -/

theorem findIdx?_some_lt {α : Type} (p : α → Bool) :
    ∀ (l : List α) (i : Nat), l.findIdx? p = some i → i < l.length := by
  intro l
  induction l with
  | nil => intro i h; simp [List.findIdx?] at h
  | cons a l ih =>
    intro i h
    rw [List.findIdx?_cons] at h
    by_cases hp : p a
    · simp [hp] at h
      subst h
      simp
    · simp [hp] at h
      rcases h with ⟨j, hj, rfl⟩
      have := ih j hj
      simp only [List.length_cons]
      omega

theorem find?_eq_findIdx?_bind {α : Type} (p : α → Bool) (l : List α) :
    l.find? p = (l.findIdx? p).bind (fun i => l[i]?) := by
  induction l with
  | nil => rfl
  | cons a l ih =>
    by_cases h : p a
    · simp [List.find?_cons, h, List.findIdx?_cons]
    · simp [List.find?_cons, h, List.findIdx?_cons, ih, Option.bind_map]

theorem set_of_getElem?_eq {α : Type} :
    ∀ (l : List α) (i : Nat) (x : α), l[i]? = some x → l.set i x = l := by
  intro l
  induction l with
  | nil => intro i x h; simp at h
  | cons a l ih =>
    intro i x h
    cases i with
    | zero =>
      simp at h
      rw [h]
      rfl
    | succ i =>
      simp at h
      rw [List.set_cons_succ, ih i x h]

theorem findIdx?_of_map_eq {α β : Type} (f : α → β) (q : β → Bool) :
    ∀ (l₁ l₂ : List α), l₁.map f = l₂.map f →
      l₁.findIdx? (fun a => q (f a)) = l₂.findIdx? (fun a => q (f a)) := by
  intro l₁
  induction l₁ with
  | nil =>
    intro l₂ h
    cases l₂ with
    | nil => rfl
    | cons b t => simp at h
  | cons a t ih =>
    intro l₂ h
    cases l₂ with
    | nil => simp at h
    | cons b t₂ =>
      simp only [List.map_cons, List.cons.injEq] at h
      rw [List.findIdx?_cons, List.findIdx?_cons, h.1,
          List.findIdx?_succ, List.findIdx?_succ, ih t₂ h.2]

theorem getCurrentAgent_eq_idx (st : WBState) :
    getCurrentAgent st =
      match st.agents.findIdx? (fun a => st.currentId == some a.id) with
      | some i => st.agents[i]?
      | none => st.agents.head? := by
  unfold getCurrentAgent
  rw [find?_eq_findIdx?_bind]
  cases h : st.agents.findIdx? (fun a => st.currentId == some a.id) with
  | none => rfl
  | some i =>
    have hi := findIdx?_some_lt _ st.agents i h
    rcases hx : st.agents[i]? with _ | a
    · have := List.getElem?_eq_none_iff.mp hx
      omega
    · simp [hx]

theorem applyPatch_id (a : Agent) (p : Patch) : (applyPatch a p).id = a.id := rfl

/-- The element `getCurrentAgent` aliases sits at `currentAgentIdx`. -/
theorem getCurrent_getElem (st : WBState) (a : Agent)
    (h : getCurrentAgent st = some a) :
    st.agents[currentAgentIdx st]? = some a := by
  rw [getCurrentAgent_eq_idx] at h
  unfold currentAgentIdx
  cases hf : st.agents.findIdx? (fun b => st.currentId == some b.id) with
  | none =>
    rw [hf] at h
    simp only at h
    rw [← List.head?_eq_getElem? st.agents]
    exact h
  | some i =>
    rw [hf] at h
    simpa using h

/-- Effect of one `updateCurrentAgent` on a state with a current agent:
the patch lands on the current agent (which stays current), the patched
agent becomes the pending write, the timer is pending, and no durable
write happens. -/
theorem update_step (st : WBState) (a : Agent) (p : Patch)
    (h : getCurrentAgent st = some a) :
    getCurrentAgent (updateCurrentAgent p st) = some (applyPatch a p) ∧
    (updateCurrentAgent p st).pendingAgent = some (applyPatch a p) ∧
    (updateCurrentAgent p st).saveTimer = true ∧
    (updateCurrentAgent p st).writes = st.writes ∧
    (updateCurrentAgent p st).currentId = st.currentId := by
  have hst' : updateCurrentAgent p st =
      { st with
        agents := st.agents.set (currentAgentIdx st) (applyPatch a p)
        pendingAgent := some (applyPatch a p)
        saveTimer := true } := by
    unfold updateCurrentAgent
    rw [h]
  have hA : st.agents[currentAgentIdx st]? = some a := getCurrent_getElem st a h
  have hlt : currentAgentIdx st < st.agents.length :=
    (List.getElem?_eq_some.mp hA).1
  have hids : (st.agents.set (currentAgentIdx st) (applyPatch a p)).map
      (fun b => b.id) = st.agents.map (fun b => b.id) := by
    rw [List.map_set]
    apply set_of_getElem?_eq
    simp [hA, applyPatch_id]
  have hfind :
      (st.agents.set (currentAgentIdx st) (applyPatch a p)).findIdx?
          (fun b => st.currentId == some b.id) =
        st.agents.findIdx? (fun b => st.currentId == some b.id) :=
    findIdx?_of_map_eq (fun b : Agent => b.id) (fun i => st.currentId == some i) _ _ hids
  refine ⟨?_, by rw [hst'], by rw [hst'], by rw [hst'], by rw [hst']⟩
  rw [hst', getCurrentAgent_eq_idx]
  simp only
  rw [hfind]
  cases hf : st.agents.findIdx? (fun b => st.currentId == some b.id) with
  | some i =>
    have hidx : currentAgentIdx st = i := by
      unfold currentAgentIdx
      rw [hf]
    rw [← hidx]
    simp [List.getElem?_set_self, hlt]
  | none =>
    have hidx : currentAgentIdx st = 0 := by
      unfold currentAgentIdx
      rw [hf]
    rw [List.head?_eq_getElem? _, ← hidx]
    simp [List.getElem?_set_self, hlt]

theorem applyPatches_spec (ps : List Patch) :
    ∀ (p : Patch) (st : WBState) (a : Agent), getCurrentAgent st = some a →
      getCurrentAgent (applyPatches (p :: ps) st) =
        some ((p :: ps).foldl applyPatch a) ∧
      (applyPatches (p :: ps) st).pendingAgent =
        some ((p :: ps).foldl applyPatch a) ∧
      (applyPatches (p :: ps) st).saveTimer = true ∧
      (applyPatches (p :: ps) st).writes = st.writes := by
  induction ps with
  | nil =>
    intro p st a h
    have hu := update_step st a p h
    simp only [applyPatches, List.foldl_cons, List.foldl_nil]
    exact ⟨hu.1, hu.2.1, hu.2.2.1, hu.2.2.2.1⟩
  | cons q ps ih =>
    intro p st a h
    have hu := update_step st a p h
    have hrec := ih q (updateCurrentAgent p st) (applyPatch a p) hu.1
    simp only [applyPatches, List.foldl_cons] at hrec ⊢
    refine ⟨hrec.1, hrec.2.1, hrec.2.2.1, ?_⟩
    rw [hrec.2.2.2, hu.2.2.2.1]

/-- C6.  Debounce coalescing with latest-wins ordering: any number of
`updateCurrentAgent` patches inside one debounce window cause no
durable write while the window is open, and exactly one durable write —
of the state produced by the last patch — when the timer fires (or when
`flushPendingWrite` runs at teardown). -/
theorem claim_C6_debounce_coalescing (p : Patch) (ps : List Patch)
    (st : WBState) (a : Agent) (h : getCurrentAgent st = some a) :
    (applyPatches (p :: ps) st).writes = st.writes ∧
    (timerFire (applyPatches (p :: ps) st)).writes =
      st.writes ++ [(p :: ps).foldl applyPatch a] ∧
    (flushPendingWrite (applyPatches (p :: ps) st)).writes =
      st.writes ++ [(p :: ps).foldl applyPatch a] := by
  obtain ⟨hcur, hpend, htimer, hwrites⟩ := applyPatches_spec ps p st a h
  refine ⟨hwrites, ?_, ?_⟩
  · unfold timerFire
    rw [htimer]
    simp only [if_true, hpend, hwrites]
  · unfold flushPendingWrite
    rw [hpend, hwrites]

def c6Agent : Agent :=
  { id := ("a1x").data, name := ("Agent 1").data, model := [],
    systemPrompt := [], messages := [] }

def c6PatchA : Patch :=
  { name := none, model := some (("m1").data), systemPrompt := none,
    messages := none }

def c6PatchB : Patch :=
  { name := none, model := some (("m2").data),
    systemPrompt := some (("s").data), messages := none }

def c6State : WBState :=
  { agents := [c6Agent], currentId := some c6Agent.id,
    saveTimer := false, pendingAgent := none, writes := [] }

/-- Witness for C6: two patches in one window, one durable write of the
second patch's cumulative state. -/
theorem claim_C6_witness :
    (applyPatches [c6PatchA, c6PatchB] c6State).writes = c6State.writes ∧
    (timerFire (applyPatches [c6PatchA, c6PatchB] c6State)).writes =
      c6State.writes ++ [[c6PatchA, c6PatchB].foldl applyPatch c6Agent] ∧
    (flushPendingWrite (applyPatches [c6PatchA, c6PatchB] c6State)).writes =
      c6State.writes ++ [[c6PatchA, c6PatchB].foldl applyPatch c6Agent] :=
  claim_C6_debounce_coalescing c6PatchA [c6PatchB] c6State c6Agent (by rfl)

/-- C7.  At-least-one-agent invariant: every state-manager operation of
the §4.4 contract preserves a non-empty agent list, and deleting the
sole remaining agent atomically replaces it by a fresh empty `Agent 1`
(with the newly generated id) which becomes current and is persisted. -/
theorem claim_C7_at_least_one_agent (st : WBState)
    (fresh name id : List Char) (p : Patch) (hne : st.agents ≠ []) :
    (deleteAgent fresh id st).agents ≠ [] ∧
    (createAgent fresh name st).agents ≠ [] ∧
    (updateCurrentAgent p st).agents ≠ [] ∧
    (duplicateAgent fresh id st).agents ≠ [] ∧
    (renameAgent id name st).agents ≠ [] ∧
    (setCurrentAgent id st).agents ≠ [] ∧
    (∀ a : Agent, st.agents = [a] →
      deleteAgent fresh a.id st =
        { st with
          agents := [makeAgent fresh (("Agent 1").data)]
          currentId := some fresh
          writes := st.writes ++ [makeAgent fresh (("Agent 1").data)] }) := by
  refine ⟨?_, ?_, ?_, ?_, ?_, ?_, ?_⟩
  · unfold deleteAgent
    cases hf : st.agents.findIdx? (fun a => a.id == id) with
    | none => exact hne
    | some i =>
      simp only
      cases he : (st.agents.eraseIdx i).isEmpty with
      | true => simp
      | false =>
        simp only [Bool.false_eq_true, if_false]
        intro hcon
        rw [hcon] at he
        simp at he
  · unfold createAgent
    simp
  · unfold updateCurrentAgent
    cases hc : getCurrentAgent st with
    | none => exact hne
    | some a =>
      simp only
      intro hcon
      have := congrArg List.length hcon
      simp at this
      exact hne this
  · unfold duplicateAgent
    cases hf : st.agents.find? (fun a => a.id == id) with
    | none => exact hne
    | some src => simp
  · unfold renameAgent
    cases hf : st.agents.findIdx? (fun a => a.id == id) with
    | none => exact hne
    | some i =>
      simp only
      cases hg : st.agents[i]? with
      | none => exact hne
      | some a =>
        simp only
        intro hcon
        have := congrArg List.length hcon
        simp at this
        exact hne this
  · unfold setCurrentAgent
    by_cases hf : (st.agents.find? (fun a => a.id == id)).isSome = true
    · rw [if_pos hf]; exact hne
    · rw [if_neg hf]; exact hne
  · intro a ha
    unfold deleteAgent
    rw [ha]
    simp [List.findIdx?_cons, List.eraseIdx, makeAgent]

def c7Fresh : List Char := ("f2abc").data

/-- Witness for C7 at a singleton state. -/
theorem claim_C7_witness :
    (deleteAgent c7Fresh (("zzz").data) c6State).agents ≠ [] ∧
    deleteAgent c7Fresh c6Agent.id c6State =
      { c6State with
        agents := [makeAgent c7Fresh (("Agent 1").data)]
        currentId := some c7Fresh
        writes := c6State.writes ++ [makeAgent c7Fresh (("Agent 1").data)] } :=
  ⟨(claim_C7_at_least_one_agent c6State c7Fresh (("N").data) (("zzz").data)
      c6PatchA (by simp [c6State])).1,
   (claim_C7_at_least_one_agent c6State c7Fresh (("N").data) (("zzz").data)
      c6PatchA (by simp [c6State])).2.2.2.2.2.2 c6Agent rfl⟩

/-- Whether the remembered current id matches no agent in the list
(including the `null` id). -/
def danglingCurrent (st : WBState) : Bool :=
  match st.currentId with
  | none => true
  | some cid => !(st.agents.any (fun a => a.id == cid))

/-- The C10 behaviour at one state: with a non-empty list
`getCurrentAgent` always answers (falling back to the first agent when
the current id is dangling, in which case `updateCurrentAgent` patches
that first agent); with an empty list `updateCurrentAgent` is a no-op. -/
def c10holds (st : WBState) (p : Patch) : Bool :=
  if st.agents.isEmpty then
    decide (getCurrentAgent st = none) && decide (updateCurrentAgent p st = st)
  else
    (getCurrentAgent st).isSome &&
    (if danglingCurrent st then
       decide (getCurrentAgent st = st.agents.head?) &&
       decide ((updateCurrentAgent p st).agents.head? =
         st.agents.head?.map (fun a => applyPatch a p))
     else true)

/-- C10.  `getCurrentAgent` falls back to the first agent whenever the
list is non-empty, even for a dangling `currentId`; consequently
`updateCurrentAgent` then applies its patch to the first agent, and it
is a no-op exactly when the agent list is empty. -/
theorem claim_C10_current_agent_fallback (st : WBState) (p : Patch) :
    c10holds st p = true := by
  rcases hag : st.agents with _ | ⟨a, t⟩
  · have h1 : getCurrentAgent st = none := by
      unfold getCurrentAgent
      rw [hag]
      rfl
    have h2 : updateCurrentAgent p st = st := by
      unfold updateCurrentAgent
      rw [h1]
    unfold c10holds
    rw [hag]
    simp [h1, h2]
  · have hsome : (getCurrentAgent st).isSome = true := by
      unfold getCurrentAgent
      cases hf : st.agents.find? (fun b => st.currentId == some b.id) with
      | some b => rfl
      | none => rw [hag]; rfl
    have hemp : st.agents.isEmpty = false := by rw [hag]; rfl
    unfold c10holds
    rw [hemp]
    simp only [Bool.false_eq_true, if_false]
    by_cases hd : danglingCurrent st = true
    · have hpred : ∀ b ∈ st.agents, (st.currentId == some b.id) = false := by
        intro b hb
        unfold danglingCurrent at hd
        cases hcid : st.currentId with
        | none => rfl
        | some cid =>
          rw [hcid] at hd
          simp only [Bool.not_eq_true'] at hd
          have hban : (b.id == cid) = false := by
            have := List.any_eq_false.mp hd b hb
            revert this
            cases b.id == cid <;> simp
          have hne2 : b.id ≠ cid := by
            intro hcon
            rw [hcon] at hban
            simp at hban
          have : cid ≠ b.id := fun hcon => hne2 hcon.symm
          simp [this]
      have hfind : st.agents.find? (fun b => st.currentId == some b.id) = none := by
        rw [List.find?_eq_none]
        intro x hx
        rw [hpred x hx]
        exact Bool.false_ne_true
      have hfindIdx :
          st.agents.findIdx? (fun b => st.currentId == some b.id) = none := by
        rw [List.findIdx?_eq_none_iff]
        intro x hx
        exact hpred x hx
      have hcur : getCurrentAgent st = st.agents.head? := by
        unfold getCurrentAgent
        rw [hfind]
      have hcura : getCurrentAgent st = some a := by
        rw [hcur, hag]
        rfl
      have hidx : currentAgentIdx st = 0 := by
        unfold currentAgentIdx
        rw [hfindIdx]
      have hupd : updateCurrentAgent p st =
          { st with
            agents := st.agents.set 0 (applyPatch a p)
            pendingAgent := some (applyPatch a p)
            saveTimer := true } := by
        unfold updateCurrentAgent
        rw [hcura, hidx]
      have hhead : (updateCurrentAgent p st).agents.head? =
          st.agents.head?.map (fun b => applyPatch b p) := by
        rw [hupd]
        simp only
        rw [hag]
        rfl
      simp [hsome, hd, hcur, hhead, hag]
    · simp [hsome, hd]

/-! ### `loadAllAgents` ordering (storage.js)

`getAll()` hands back the stored records (`stored`, in store key
order); when a non-empty `agentOrder` exists the list is sorted with
the comparator `ai - bi` over a `Map` of order positions, ids missing
from the order mapping to `Infinity`.  ECMAScript `sort` is stable and
treats the `Infinity - Infinity = NaN` comparator result as `0`, so the
result is exactly the stable sort by position-with-`Infinity`-sentinel;
it is realized here by a stable insertion sort on the key that maps a
missing id to `order.length` (the comparator's sign is unchanged). -/

/-- Index of the last occurrence (`new Map(order.map((id, i) => [id, i]))`
keeps the last duplicate). -/
def lastIdxOf (order : List (List Char)) (x : List Char) : Option Nat :=
  match order with
  | [] => none
  | y :: ys =>
    match lastIdxOf ys x with
    | some j => some (j + 1)
    | none => if y == x then some 0 else none

/-- Sort key of one agent: its order position, or the sentinel
`order.length` standing in for `Infinity`. -/
def orderKey (order : List (List Char)) (a : Agent) : Nat :=
  (lastIdxOf order a.id).getD order.length

def insertByKey (k : Agent → Nat) (a : Agent) : List Agent → List Agent
  | [] => [a]
  | b :: bs => if k a ≤ k b then a :: b :: bs else b :: insertByKey k a bs

def sortByKey (k : Agent → Nat) : List Agent → List Agent
  | [] => []
  | a :: rest => insertByKey k a (sortByKey k rest)

/-- `loadAllAgents`: the `getAll()` result, sorted by `agentOrder`
positions when a non-empty order list is stored. -/
def loadAllAgents (stored : List Agent) (order : List (List Char)) :
    List Agent :=
  if order.length > 0 then sortByKey (orderKey order) stored else stored

theorem lastIdxOf_eq_none_iff (x : List Char) :
    ∀ (l : List (List Char)), lastIdxOf l x = none ↔ x ∉ l := by
  intro l
  induction l with
  | nil => simp [lastIdxOf]
  | cons y ys ih =>
    show (match lastIdxOf ys x with
      | some j => some (j + 1)
      | none => if y == x then some 0 else none) = none ↔ x ∉ y :: ys
    cases h : lastIdxOf ys x with
    | some j =>
      have hx : x ∈ ys := by
        by_contra hxn
        rw [ih.mpr hxn] at h
        simp at h
      simp [hx]
    | none =>
      have hys : x ∉ ys := ih.mp h
      by_cases hyx : y = x
      · subst hyx
        simp
      · have hb : (y == x) = false := beq_eq_false_iff_ne.mpr hyx
        have hxy : x ≠ y := fun hcon => hyx hcon.symm
        simp [hb, hys, hxy]

theorem lastIdxOf_some_lt (x : List Char) :
    ∀ (l : List (List Char)) (j : Nat), lastIdxOf l x = some j → j < l.length := by
  intro l
  induction l with
  | nil => intro j h; simp [lastIdxOf] at h
  | cons y ys ih =>
    intro j
    show (match lastIdxOf ys x with
      | some i => some (i + 1)
      | none => if y == x then some 0 else none) = some j → j < (y :: ys).length
    cases hys : lastIdxOf ys x with
    | some i =>
      intro h
      simp only [Option.some.injEq] at h
      have := ih i hys
      simp only [List.length_cons]
      omega
    | none =>
      intro h
      by_cases hyx : (y == x) = true
      · rw [if_pos hyx] at h
        simp only [Option.some.injEq] at h
        simp only [List.length_cons]
        omega
      · rw [if_neg hyx] at h
        simp at h

theorem lastIdxOf_append (x : List Char) (ys zs : List (List Char)) :
    lastIdxOf (ys ++ zs) x =
      match lastIdxOf zs x with
      | some j => some (ys.length + j)
      | none => lastIdxOf ys x := by
  induction ys with
  | nil =>
    cases h : lastIdxOf zs x <;> simp [h, lastIdxOf]
  | cons y ys ih =>
    rw [List.cons_append]
    show (match lastIdxOf (ys ++ zs) x with
      | some j => some (j + 1)
      | none => if y == x then some 0 else none) = _
    rw [ih]
    cases h : lastIdxOf zs x with
    | some j =>
      simp only [Option.some.injEq, List.length_cons]
      omega
    | none => rfl

theorem insertByKey_through (k : Agent → Nat) (a : Agent) :
    ∀ (l1 l2 : List Agent), (∀ b ∈ l1, k b < k a) →
      insertByKey k a (l1 ++ l2) = l1 ++ insertByKey k a l2 := by
  intro l1
  induction l1 with
  | nil => intro l2 _; rfl
  | cons b bs ih =>
    intro l2 h
    have hb : k b < k a := h b (List.mem_cons_self b bs)
    show (if k a ≤ k b then a :: b :: (bs ++ l2)
          else b :: insertByKey k a (bs ++ l2)) = _
    rw [if_neg (by omega), ih l2 (fun c hc => h c (List.mem_cons_of_mem b hc))]
    rfl

theorem insertByKey_front (k : Agent → Nat) (a : Agent) (l2 : List Agent)
    (h : ∀ b ∈ l2, k a ≤ k b) : insertByKey k a l2 = a :: l2 := by
  cases l2 with
  | nil => rfl
  | cons b bs =>
    show (if k a ≤ k b then a :: b :: bs else b :: insertByKey k a bs) = _
    rw [if_pos (h b (List.mem_cons_self b bs))]

/-- Membership in the order-driven part: such an agent is stored and
its id occurs in the order segment. -/
theorem mem_orderPart {stored : List Agent} {seg : List (List Char)}
    {b : Agent}
    (h : b ∈ seg.filterMap (fun oid => stored.find? (fun c => c.id == oid))) :
    b ∈ stored ∧ b.id ∈ seg := by
  rcases List.mem_filterMap.mp h with ⟨oid, hoid, hfind⟩
  have hmem := List.mem_of_find?_eq_some hfind
  have hpred := List.find?_some hfind
  have hid : b.id = oid := beq_iff_eq.mp hpred
  exact ⟨hmem, hid ▸ hoid⟩

theorem mem_stragglers {stored : List Agent} {order : List (List Char)}
    {b : Agent}
    (h : b ∈ stored.filter (fun c => decide (c.id ∉ order))) :
    b ∈ stored ∧ b.id ∉ order := by
  have := List.mem_filter.mp h
  exact ⟨this.1, of_decide_eq_true this.2⟩

theorem orderKey_of_not_mem {order : List (List Char)} {x : List Char}
    (h : x ∉ order) (a : Agent) (ha : a.id = x) :
    orderKey order a = order.length := by
  unfold orderKey
  rw [ha, (lastIdxOf_eq_none_iff x order).mpr h]
  rfl

theorem orderKey_lt_of_mem {order : List (List Char)} {b : Agent}
    (h : b.id ∈ order) : orderKey order b < order.length := by
  unfold orderKey
  cases hl : lastIdxOf order b.id with
  | none =>
    exact absurd ((lastIdxOf_eq_none_iff b.id order).mp hl) (by simp [h])
  | some j =>
    simpa using lastIdxOf_some_lt b.id order j hl

theorem sortByKey_eq (order : List (List Char)) (horder : order.Nodup) :
    ∀ (stored : List Agent), (stored.map (fun a => a.id)).Nodup →
      sortByKey (orderKey order) stored =
        order.filterMap (fun oid => stored.find? (fun c => c.id == oid)) ++
        stored.filter (fun c => decide (c.id ∉ order)) := by
  intro stored
  induction stored with
  | nil =>
    intro _
    simp [sortByKey]
  | cons a rest ih =>
    intro hnodup
    rw [List.map_cons, List.nodup_cons] at hnodup
    obtain ⟨hanotin, hrestn⟩ := hnodup
    have hrec := ih hrestn
    show insertByKey (orderKey order) a (sortByKey (orderKey order) rest) = _
    rw [hrec]
    by_cases hmem : a.id ∈ order
    · -- the id occurs in the order list
      obtain ⟨o1, o2, horder_eq⟩ := List.append_of_mem hmem
      subst horder_eq
      rw [List.nodup_append] at horder
      obtain ⟨hn1, hn2c, hdisj⟩ := horder
      rw [List.nodup_cons] at hn2c
      obtain ⟨hno2, hn2⟩ := hn2c
      have hka : orderKey (o1 ++ a.id :: o2) a = o1.length := by
        unfold orderKey
        rw [lastIdxOf_append]
        have hz : lastIdxOf (a.id :: o2) a.id = some 0 := by
          show (match lastIdxOf o2 a.id with
            | some j => some (j + 1)
            | none => if a.id == a.id then some 0 else none) = some 0
          rw [(lastIdxOf_eq_none_iff a.id o2).mpr hno2]
          simp
        rw [hz]
        simp
      have hfainrest : rest.find? (fun c => c.id == a.id) = none := by
        rw [List.find?_eq_none]
        intro x hx hcon
        have hxid : x.id = a.id := beq_iff_eq.mp hcon
        exact hanotin (hxid ▸ List.mem_map_of_mem (fun c => c.id) hx)
      have hppcong : ∀ (l : List (List Char)), a.id ∉ l →
          l.filterMap (fun oid => (a :: rest).find? (fun c => c.id == oid)) =
          l.filterMap (fun oid => rest.find? (fun c => c.id == oid)) := by
        intro l hl
        apply List.filterMap_congr
        intro oid hoid
        have hne : (a.id == oid) = false :=
          beq_eq_false_iff_ne.mpr (fun hcon => hl (hcon ▸ hoid))
        simp [List.find?_cons, hne]
      have hno1 : a.id ∉ o1 := fun hcon => hdisj hcon (List.mem_cons_self _ _)
      have hfa : (a :: rest).find? (fun c => c.id == a.id) = some a := by
        simp [List.find?_cons]
      -- decompose the order-driven part on both sides
      rw [List.filterMap_append, List.filterMap_append]
      have hmidL : (a.id :: o2).filterMap
          (fun oid => rest.find? (fun c => c.id == oid)) =
          o2.filterMap (fun oid => rest.find? (fun c => c.id == oid)) := by
        simp [List.filterMap_cons, hfainrest]
      have hmidR : (a.id :: o2).filterMap
          (fun oid => (a :: rest).find? (fun c => c.id == oid)) =
          a :: o2.filterMap (fun oid => (a :: rest).find? (fun c => c.id == oid)) := by
        simp [List.filterMap_cons, hfa]
      rw [hmidL, hmidR, hppcong o1 hno1, hppcong o2 hno2]
      have hsg : (a :: rest).filter (fun c => decide (c.id ∉ o1 ++ a.id :: o2)) =
          rest.filter (fun c => decide (c.id ∉ o1 ++ a.id :: o2)) := by
        rw [List.filter_cons, if_neg (by simp [hmem])]
      rw [hsg]
      -- place `a` by the stable insertion
      have hb1 : ∀ b ∈ o1.filterMap
          (fun oid => rest.find? (fun c => c.id == oid)),
          orderKey (o1 ++ a.id :: o2) b < orderKey (o1 ++ a.id :: o2) a := by
        intro b hb
        obtain ⟨_, hbid⟩ := mem_orderPart hb
        rw [hka]
        unfold orderKey
        have hnz : lastIdxOf (a.id :: o2) b.id = none := by
          rw [lastIdxOf_eq_none_iff]
          exact hdisj hbid
        rw [lastIdxOf_append, hnz]
        show (lastIdxOf o1 b.id).getD _ < o1.length
        cases hj : lastIdxOf o1 b.id with
        | none =>
          exact absurd ((lastIdxOf_eq_none_iff b.id o1).mp hj) (by simp [hbid])
        | some j =>
          simpa using lastIdxOf_some_lt b.id o1 j hj
      have hb2 : ∀ b ∈ o2.filterMap
            (fun oid => rest.find? (fun c => c.id == oid)) ++
            rest.filter (fun c => decide (c.id ∉ o1 ++ a.id :: o2)),
          orderKey (o1 ++ a.id :: o2) a ≤ orderKey (o1 ++ a.id :: o2) b := by
        intro b hb
        rw [hka]
        rcases List.mem_append.mp hb with h2 | h2
        · obtain ⟨_, hbid⟩ := mem_orderPart h2
          unfold orderKey
          cases hj : lastIdxOf o2 b.id with
          | none =>
            exact absurd ((lastIdxOf_eq_none_iff b.id o2).mp hj) (by simp [hbid])
          | some j =>
            have hz : lastIdxOf (a.id :: o2) b.id = some (j + 1) := by
              show (match lastIdxOf o2 b.id with
                | some i => some (i + 1)
                | none => if a.id == b.id then some 0 else none) = some (j + 1)
              rw [hj]
            rw [lastIdxOf_append, hz]
            show o1.length ≤ (some (o1.length + (j + 1))).getD _
            simp
        · obtain ⟨_, hbid⟩ := mem_stragglers h2
          rw [orderKey_of_not_mem hbid b rfl]
          simp only [List.length_append, List.length_cons]
          omega
      rw [List.append_assoc,
          insertByKey_through (orderKey (o1 ++ a.id :: o2)) a _ _ hb1,
          insertByKey_front (orderKey (o1 ++ a.id :: o2)) a _ hb2]
      simp
    · -- straggler id
      have hka : orderKey order a = order.length := orderKey_of_not_mem hmem a rfl
      have hpp : order.filterMap (fun oid => (a :: rest).find? (fun c => c.id == oid)) =
          order.filterMap (fun oid => rest.find? (fun c => c.id == oid)) := by
        apply List.filterMap_congr
        intro oid hoid
        have hne : (a.id == oid) = false :=
          beq_eq_false_iff_ne.mpr (fun hcon => hmem (hcon ▸ hoid))
        simp [List.find?_cons, hne]
      have hsg : (a :: rest).filter (fun c => decide (c.id ∉ order)) =
          a :: rest.filter (fun c => decide (c.id ∉ order)) := by
        rw [List.filter_cons, if_pos (by simpa using hmem)]
      rw [hpp, hsg]
      have hb1 : ∀ b ∈ order.filterMap
          (fun oid => rest.find? (fun c => c.id == oid)),
          orderKey order b < orderKey order a := by
        intro b hb
        obtain ⟨_, hbid⟩ := mem_orderPart hb
        rw [hka]
        exact orderKey_lt_of_mem hbid
      have hb2 : ∀ b ∈ rest.filter (fun c => decide (c.id ∉ order)),
          orderKey order a ≤ orderKey order b := by
        intro b hb
        obtain ⟨_, hbid⟩ := mem_stragglers hb
        rw [hka, orderKey_of_not_mem hbid b rfl]
      rw [insertByKey_through (orderKey order) a _ _ hb1,
          insertByKey_front (orderKey order) a _ hb2]

/-- C8.  Order reconstruction: `loadAllAgents` returns the agents whose
ids appear in `agentOrder` first, in the order given there, followed by
the agents whose ids are absent from the order list, in encounter
order. -/
theorem claim_C8_order_reconstruction (stored : List Agent)
    (order : List (List Char))
    (hids : (stored.map (fun a => a.id)).Nodup) (horder : order.Nodup) :
    loadAllAgents stored order =
      order.filterMap (fun oid => stored.find? (fun c => c.id == oid)) ++
      stored.filter (fun c => decide (c.id ∉ order)) := by
  unfold loadAllAgents
  by_cases hlen : order.length > 0
  · rw [if_pos hlen]
    exact sortByKey_eq order horder stored hids
  · rw [if_neg hlen]
    have hnil : order = [] := by
      cases order with
      | nil => rfl
      | cons x xs => simp at hlen
    subst hnil
    simp

def c8AgentA : Agent :=
  { id := ("idA").data, name := ("A").data, model := [],
    systemPrompt := [], messages := [] }

def c8AgentB : Agent :=
  { id := ("idB").data, name := ("B").data, model := [],
    systemPrompt := [], messages := [] }

def c8AgentC : Agent :=
  { id := ("idC").data, name := ("C").data, model := [],
    systemPrompt := [], messages := [] }

/-- Witness for C8: the spec's own example — agents `{A, B, C}` with
`agentOrder = ["C", "A"]` load as `[C, A, B]`. -/
theorem claim_C8_witness :
    loadAllAgents [c8AgentA, c8AgentB, c8AgentC]
      [("idC").data, ("idA").data] = [c8AgentC, c8AgentA, c8AgentB] :=
  (claim_C8_order_reconstruction [c8AgentA, c8AgentB, c8AgentC]
      [("idC").data, ("idA").data] (by decide) (by decide)).trans (by decide)

/-! ### Legacy migration (storage.js)

The IndexedDB stores are modelled by their lookup maps (record order in
the store is not observable: `getAll` returns key order), plus the
legacy localStorage blob.  A `put` upserts by key. -/

structure StoreState where
  agentRecs : List Char → Option Json
  metaRecs : List Char → Option Json
  legacy : Option (List Char)

/-- One `put`: upsert by key. -/
def putF (f : List Char → Option Json) (k : List Char) (v : Json) :
    List Char → Option Json :=
  fun q => if q = k then some v else f q

/-- A sequence of `put` calls committed by one transaction. -/
def applyPuts (f : List Char → Option Json)
    (P : List (List Char × Json)) : List Char → Option Json :=
  P.foldl (fun g kv => putF g kv.1 kv.2) f

/-- The last value a put sequence assigns to a key, if any. -/
def lastVal : List (List Char × Json) → List Char → Option Json
  | [], _ => none
  | kv :: Q, k =>
    match lastVal Q k with
    | some v => some v
    | none => if kv.1 = k then some kv.2 else none

theorem putF_idem (f : List Char → Option Json) (k : List Char) (v : Json) :
    putF (putF f k v) k v = putF f k v := by
  funext q
  unfold putF
  by_cases h : q = k <;> simp [h]

theorem applyPuts_lookup (P : List (List Char × Json)) :
    ∀ (f : List Char → Option Json) (q : List Char),
      applyPuts f P q =
        match lastVal P q with
        | some v => some v
        | none => f q := by
  induction P with
  | nil => intro f q; rfl
  | cons kv Q ih =>
    intro f q
    show applyPuts (putF f kv.1 kv.2) Q q = _
    rw [ih]
    cases h : lastVal Q q with
    | some v =>
      show some v = (match lastVal (kv :: Q) q with
        | some w => some w
        | none => f q)
      show some v = (match (match lastVal Q q with
        | some w => some w
        | none => if kv.1 = q then some kv.2 else none) with
        | some w => some w
        | none => f q)
      rw [h]
    | none =>
      show putF f kv.1 kv.2 q = (match (match lastVal Q q with
        | some w => some w
        | none => if kv.1 = q then some kv.2 else none) with
        | some w => some w
        | none => f q)
      rw [h]
      unfold putF
      by_cases hq : q = kv.1
      · simp [hq]
      · have : ¬kv.1 = q := fun hcon => hq hcon.symm
        simp [hq, this]

/-- Re-running the same put sequence on its own result changes
nothing. -/
theorem applyPuts_idem (P : List (List Char × Json))
    (f : List Char → Option Json) :
    applyPuts (applyPuts f P) P = applyPuts f P := by
  funext q
  rw [applyPuts_lookup, applyPuts_lookup]
  cases h : lastVal P q with
  | some v => rfl
  | none => rfl

mutual

/-- Valid IndexedDB keys derivable from a JSON value: numbers, strings,
and arrays of valid keys.  `null`, booleans and plain objects are not
valid keys (the `put` throws a `DataError`). -/
def isValidKey : Json → Bool
  | .num _ => true
  | .str _ => true
  | .arr l => isValidKeyList l
  | _ => false

def isValidKeyList : List Json → Bool
  | [] => true
  | j :: rest => isValidKey j && isValidKeyList rest

end

/-- The keyPath extraction of `put(agent)`: the record's `id`, which
must be a valid key.  The key is encoded by its canonical rendering
(strings quoted, arrays bracketed), which separates the three key
shapes; numeric keys are identified by their lexeme — exact float-value
key comparison is outside this embedding, and a re-run of the migration
re-derives identical lexemes, so idempotence is unaffected. -/
def extractKey (j : Json) : Option (List Char) :=
  match j.getField keyId with
  | some idv => if isValidKey idv then some (jsonStringify idv) else none
  | none => none

/-- The agent puts the `for (const agent of agents)` loop queues before
the first invalid element makes `put` throw: the exception propagates
before a request is created for that element, and the already-queued
prefix commits when the transaction auto-commits. -/
def agentPutsOf : List Json → List (List Char × Json)
  | [] => []
  | j :: rest =>
    match extractKey j with
    | none => []
    | some k => (k, j) :: agentPutsOf rest

/-- Whether every element of the agents array survives `put`. -/
def agentPutsOk : List Json → Bool
  | [] => true
  | j :: rest => (extractKey j).isSome && agentPutsOk rest

/-- Positivity of a JSON number lexeme (`x > 0`): positive sign and a
non-zero mantissa digit.  (A decimal exponent cannot change sign or
zero-ness; float underflow of extreme exponents is outside this
embedding.) -/
def numLexPositive (lex : List Char) : Bool :=
  !(lex.head? == some '-') && !numLexIsZero lex

/-- Digit value for radix-2/8/16 numeric string literals. -/
def radixDigitVal (radix : Nat) (c : Char) : Option Nat :=
  match hexVal c with
  | some n => if n < radix then some n else none
  | none => none

def radixPositive (radix : Nat) (ds : List Char) : Bool :=
  !ds.isEmpty && ds.all (fun c => (radixDigitVal radix c).isSome) &&
    ds.any (fun c => !(radixDigitVal radix c == some 0))

/-- Positivity of a decimal string numeric literal
(`digits[.digits][exp]`, `.digits[exp]`): the grammar must match the
whole input (else `NaN`, not `> 0`) and a mantissa digit must be
non-zero. -/
def decimalPositive (r : List Char) : Bool :=
  let p1 := takeDigits r
  let hasDot := p1.2.head? == some '.'
  let p2 := if hasDot then takeDigits (p1.2.drop 1) else (([] : List Char), p1.2)
  let mantOk := !(p1.1.isEmpty && p2.1.isEmpty)
  let expOk :=
    match p2.2 with
    | [] => true
    | e :: rest =>
      if e == 'e' || e == 'E' then
        let rest2 :=
          match rest with
          | '+' :: rr => rr
          | '-' :: rr => rr
          | _ => rest
        let p3 := takeDigits rest2
        !p3.1.isEmpty && p3.2.isEmpty
      else false
  mantOk && expOk && (p1.1 ++ p2.1).any (fun c => !(c == '0'))

/-- Positivity of the unsigned body of a string numeric literal. -/
def jsStrBodyPositive (r : List Char) : Bool :=
  if r == ("Infinity").data then true
  else
    match r with
    | '0' :: c :: rest =>
      if c == 'x' || c == 'X' then radixPositive 16 rest
      else if c == 'o' || c == 'O' then radixPositive 8 rest
      else if c == 'b' || c == 'B' then radixPositive 2 rest
      else decimalPositive ('0' :: c :: rest)
    | _ => decimalPositive r

/-- Positivity of `ToNumber(string)` (`s > 0`): trim, then `Infinity`,
a `0x`/`0o`/`0b` literal, or a decimal literal; anything else is `NaN`
and a leading minus can never exceed zero. -/
def jsStrPositive (s : List Char) : Bool :=
  match jsTrim s with
  | [] => false
  | '-' :: _ => false
  | '+' :: r => jsStrBodyPositive r
  | t => jsStrBodyPositive t

/-- The JS comparison `x > 0` for the values `data.agents.length` can
take on a JSON-derived object (`undefined`/`null`/object give `NaN` or
`0`; an array coerces through its comma-joined rendering). -/
def jsGtZero (v : Option Json) : Bool :=
  match v with
  | none => false
  | some .null => false
  | some (.bool b) => b
  | some (.num lex) => numLexPositive lex
  | some (.str s) => jsStrPositive s
  | some (.arr l) => jsStrPositive (jsToStrList l)
  | some (.obj _) => false

def keyLength : List Char := ("length").data

def keyAgents : List Char := ("agents").data
def keyCurrentId : List Char := ("currentId").data
def keyAgentOrder : List Char := ("agentOrder").data

/-- `migrateFromLocalStorage()`, with its durable effects per path:

* no blob, or an empty-string blob (both falsy): early return, nothing
  written, the blob (if any) left in place;
* unparsable blob: discarded unconditionally, nothing written;
* `null` data: `data.agents` throws before anything is queued;
* an agents array: the `put` loop commits the valid prefix; if some
  element's `id` is not a valid key that `put` throws, the function
  rejects and neither the meta records nor the blob are touched; if all
  puts succeed, `currentId` and `agentOrder` are written and only then
  is the blob removed;
* a truthy non-array `agents`: a string enters the loop and the first
  char-`put` throws with nothing queued, as does iterating an object
  whose `length > 0`; otherwise (number, `true`, object with falsy
  `length`) the loop is skipped, the `currentId` meta put is queued and
  `agents.map` throws — the queued put auto-commits, `agentOrder` and
  the blob are untouched. -/
def migrateFromLocalStorage (s : StoreState) : StoreState × Bool :=
  match s.legacy with
  | none => (s, true)
  | some raw =>
    if raw.isEmpty then (s, true)
    else
      match jsonParse raw with
      | none => ({ s with legacy := none }, true)
      | some data =>
        match data with
        | .null => (s, false)
        | _ =>
          let cur := jsOrJson (data.getField keyCurrentId) Json.null
          match jsOrJson (data.getField keyAgents) (Json.arr []) with
          | .arr l =>
            if agentPutsOk l then
              ({ s with
                  agentRecs := applyPuts s.agentRecs (agentPutsOf l)
                  metaRecs := putF (putF s.metaRecs keyCurrentId cur) keyAgentOrder (Json.arr (l.map (fun j => (j.getField keyId).getD Json.null)))
                  legacy := none }, true)
            else
              ({ s with agentRecs := applyPuts s.agentRecs (agentPutsOf l) },
               false)
          | .str _ => (s, false)
          | .obj fields =>
            if jsGtZero ((Json.obj fields).getField keyLength) then (s, false)
            else
              ({ s with metaRecs := putF s.metaRecs keyCurrentId cur }, false)
          | _ =>
            -- numbers and `true` (the only reachable cases: `null`,
            -- `false` and zero are falsy and default to the array)
            ({ s with metaRecs := putF s.metaRecs keyCurrentId cur }, false)

theorem migrate_of_no_legacy (s : StoreState) (h : s.legacy = none) :
    migrateFromLocalStorage s = (s, true) := by
  unfold migrateFromLocalStorage
  rw [h]

def c9EmptyBlob : StoreState :=
  { agentRecs := fun _ => none, metaRecs := fun _ => none, legacy := some [] }

/-- C9 counterexample: an empty-string legacy blob is falsy, so the
`if (!raw)` early return resolves (a successful run) without removing
it — the blob is still present after the first successful run. -/
theorem claim_C9_counterexample :
    (migrateFromLocalStorage c9EmptyBlob).2 = true ∧
    (migrateFromLocalStorage c9EmptyBlob).1.legacy = some [] :=
  ⟨rfl, rfl⟩

/-- Blob handling of one run: after a successful run the blob is gone —
except for the empty-string blob, which is left in place — and a failed
run leaves it untouched. -/
def migrationLegacyOk (s : StoreState) : Bool :=
  match migrateFromLocalStorage s with
  | (t, true) =>
    t.legacy.isNone ||
      (decide (t.legacy = s.legacy) && decide (s.legacy = some []))
  | (t, false) => decide (t.legacy = s.legacy)

theorem c9_succ_close (s X : StoreState)
    (hm : migrateFromLocalStorage s = (X, true)) (hX : X.legacy = none) :
    (migrateFromLocalStorage (migrateFromLocalStorage s).1).1 =
      (migrateFromLocalStorage s).1 ∧
    migrationLegacyOk s = true := by
  constructor
  · rw [hm]
    dsimp only
    rw [migrate_of_no_legacy X hX]
  · unfold migrationLegacyOk
    rw [hm]
    dsimp only
    simp [hX]

theorem c9_fail_close (s X : StoreState)
    (hm : migrateFromLocalStorage s = (X, false))
    (hleg2 : X.legacy = s.legacy)
    (hfix : (migrateFromLocalStorage X).1 = X) :
    (migrateFromLocalStorage (migrateFromLocalStorage s).1).1 =
      (migrateFromLocalStorage s).1 ∧
    migrationLegacyOk s = true := by
  constructor
  · rw [hm]
    dsimp only
    exact hfix
  · unfold migrationLegacyOk
    rw [hm]
    dsimp only
    simp [hleg2]

/-- C9 amended.  For every legacy blob, running the migration twice
yields the same final stored agent set and metadata as running it once:
failing runs durably keep exactly the writes whose puts were already
queued (a valid agent-put prefix, or the dangling `currentId` meta
record) and a re-run repeats them identically; the blob is removed only
after the store writes succeed, and is absent after the first
successful run unless it is the empty string, which the falsy-raw early
return leaves in place. -/
theorem claim_C9_amended_idempotence (s : StoreState) :
    (migrateFromLocalStorage (migrateFromLocalStorage s).1).1 =
      (migrateFromLocalStorage s).1 ∧
    migrationLegacyOk s = true := by
  cases hleg : s.legacy with
  | none =>
    have hm : migrateFromLocalStorage s = (s, true) := migrate_of_no_legacy s hleg
    constructor
    · simp [hm]
    · unfold migrationLegacyOk
      rw [hm]
      dsimp only
      simp [hleg]
  | some raw =>
    by_cases hraw : raw.isEmpty
    · have hm : migrateFromLocalStorage s = (s, true) := by
        unfold migrateFromLocalStorage
        rw [hleg]
        dsimp only
        rw [if_pos hraw]
      have hrawnil : raw = [] := by
        cases raw with
        | nil => rfl
        | cons c t => simp at hraw
      constructor
      · simp [hm]
      · unfold migrationLegacyOk
        rw [hm]
        dsimp only
        rw [hleg, hrawnil]
        simp
    · cases hp : jsonParse raw with
      | none =>
        have hm : migrateFromLocalStorage s = ({ s with legacy := none }, true) := by
          unfold migrateFromLocalStorage
          rw [hleg]
          dsimp only
          rw [if_neg hraw, hp]
        exact c9_succ_close s _ hm rfl
      | some data =>
        cases data with
        | null =>
          have hm : migrateFromLocalStorage s = (s, false) := by
            unfold migrateFromLocalStorage
            rw [hleg]
            dsimp only
            rw [if_neg hraw, hp]
          exact c9_fail_close s s hm rfl (by rw [hm])
        | bool b =>
          have hm : migrateFromLocalStorage s =
              ({ s with
                  metaRecs := putF (putF s.metaRecs keyCurrentId Json.null)
                    keyAgentOrder (Json.arr [])
                  legacy := none }, true) := by
            unfold migrateFromLocalStorage
            rw [hleg]
            dsimp only
            rw [if_neg hraw, hp]
            rfl
          exact c9_succ_close s _ hm rfl
        | num lex =>
          have hm : migrateFromLocalStorage s =
              ({ s with
                  metaRecs := putF (putF s.metaRecs keyCurrentId Json.null)
                    keyAgentOrder (Json.arr [])
                  legacy := none }, true) := by
            unfold migrateFromLocalStorage
            rw [hleg]
            dsimp only
            rw [if_neg hraw, hp]
            rfl
          exact c9_succ_close s _ hm rfl
        | str str2 =>
          have hm : migrateFromLocalStorage s =
              ({ s with
                  metaRecs := putF (putF s.metaRecs keyCurrentId Json.null)
                    keyAgentOrder (Json.arr [])
                  legacy := none }, true) := by
            unfold migrateFromLocalStorage
            rw [hleg]
            dsimp only
            rw [if_neg hraw, hp]
            rfl
          exact c9_succ_close s _ hm rfl
        | arr l2 =>
          have hm : migrateFromLocalStorage s =
              ({ s with
                  metaRecs := putF (putF s.metaRecs keyCurrentId Json.null)
                    keyAgentOrder (Json.arr [])
                  legacy := none }, true) := by
            unfold migrateFromLocalStorage
            rw [hleg]
            dsimp only
            rw [if_neg hraw, hp]
            rfl
          exact c9_succ_close s _ hm rfl
        | obj fields =>
          cases hAg : jsOrJson ((Json.obj fields).getField keyAgents) (Json.arr []) with
          | arr l =>
            by_cases hok : agentPutsOk l
            · have hm : migrateFromLocalStorage s =
                  ({ s with
                      agentRecs := applyPuts s.agentRecs (agentPutsOf l)
                      metaRecs := putF (putF s.metaRecs keyCurrentId (jsOrJson ((Json.obj fields).getField keyCurrentId) Json.null)) keyAgentOrder (Json.arr (l.map (fun j => (j.getField keyId).getD Json.null)))
                      legacy := none }, true) := by
                unfold migrateFromLocalStorage
                rw [hleg]
                dsimp only
                rw [if_neg hraw, hp]
                dsimp only
                rw [hAg]
                dsimp only
                rw [if_pos hok]
              exact c9_succ_close s _ hm rfl
            · have hm : migrateFromLocalStorage s =
                  ({ s with agentRecs := applyPuts s.agentRecs (agentPutsOf l) },
                   false) := by
                unfold migrateFromLocalStorage
                rw [hleg]
                dsimp only
                rw [if_neg hraw, hp]
                dsimp only
                rw [hAg]
                dsimp only
                rw [if_neg hok]
              have hm2 : migrateFromLocalStorage
                  ({ s with agentRecs := applyPuts s.agentRecs (agentPutsOf l) }) =
                  ({ s with agentRecs :=
                      applyPuts (applyPuts s.agentRecs (agentPutsOf l)) (agentPutsOf l) },
                   false) := by
                unfold migrateFromLocalStorage
                dsimp only
                rw [hleg]
                dsimp only
                rw [if_neg hraw, hp]
                dsimp only
                rw [hAg]
                dsimp only
                rw [if_neg hok]
              have hfix : (migrateFromLocalStorage
                  ({ s with agentRecs := applyPuts s.agentRecs (agentPutsOf l) })).1 =
                  { s with agentRecs := applyPuts s.agentRecs (agentPutsOf l) } := by
                rw [hm2]
                dsimp only
                rw [applyPuts_idem]
              exact c9_fail_close s _ hm rfl hfix
          | str str2 =>
            have hm : migrateFromLocalStorage s = (s, false) := by
              unfold migrateFromLocalStorage
              rw [hleg]
              dsimp only
              rw [if_neg hraw, hp]
              dsimp only
              rw [hAg]
            exact c9_fail_close s s hm rfl (by rw [hm])
          | obj fields2 =>
            by_cases hlen : jsGtZero ((Json.obj fields2).getField keyLength)
            · have hm : migrateFromLocalStorage s = (s, false) := by
                unfold migrateFromLocalStorage
                rw [hleg]
                dsimp only
                rw [if_neg hraw, hp]
                dsimp only
                rw [hAg]
                dsimp only
                rw [if_pos hlen]
              exact c9_fail_close s s hm rfl (by rw [hm])
            · have hm : migrateFromLocalStorage s =
                  ({ s with metaRecs := putF s.metaRecs keyCurrentId (jsOrJson ((Json.obj fields).getField keyCurrentId) Json.null) }, false) := by
                unfold migrateFromLocalStorage
                rw [hleg]
                dsimp only
                rw [if_neg hraw, hp]
                dsimp only
                rw [hAg]
                dsimp only
                rw [if_neg hlen]
              have hm2 : migrateFromLocalStorage
                  ({ s with metaRecs := putF s.metaRecs keyCurrentId (jsOrJson ((Json.obj fields).getField keyCurrentId) Json.null) }) =
                  ({ s with metaRecs := putF (putF s.metaRecs keyCurrentId (jsOrJson ((Json.obj fields).getField keyCurrentId) Json.null)) keyCurrentId (jsOrJson ((Json.obj fields).getField keyCurrentId) Json.null) }, false) := by
                unfold migrateFromLocalStorage
                dsimp only
                rw [hleg]
                dsimp only
                rw [if_neg hraw, hp]
                dsimp only
                rw [hAg]
                dsimp only
                rw [if_neg hlen]
              have hfix : (migrateFromLocalStorage
                  ({ s with metaRecs := putF s.metaRecs keyCurrentId (jsOrJson ((Json.obj fields).getField keyCurrentId) Json.null) })).1 =
                  { s with metaRecs := putF s.metaRecs keyCurrentId (jsOrJson ((Json.obj fields).getField keyCurrentId) Json.null) } := by
                rw [hm2]
                dsimp only
                rw [putF_idem]
              exact c9_fail_close s _ hm rfl hfix
          | null =>
            have hm : migrateFromLocalStorage s =
                ({ s with metaRecs := putF s.metaRecs keyCurrentId (jsOrJson ((Json.obj fields).getField keyCurrentId) Json.null) }, false) := by
              unfold migrateFromLocalStorage
              rw [hleg]
              dsimp only
              rw [if_neg hraw, hp]
              dsimp only
              rw [hAg]
            have hm2 : migrateFromLocalStorage
                ({ s with metaRecs := putF s.metaRecs keyCurrentId (jsOrJson ((Json.obj fields).getField keyCurrentId) Json.null) }) =
                ({ s with metaRecs := putF (putF s.metaRecs keyCurrentId (jsOrJson ((Json.obj fields).getField keyCurrentId) Json.null)) keyCurrentId (jsOrJson ((Json.obj fields).getField keyCurrentId) Json.null) }, false) := by
              unfold migrateFromLocalStorage
              dsimp only
              rw [hleg]
              dsimp only
              rw [if_neg hraw, hp]
              dsimp only
              rw [hAg]
            have hfix : (migrateFromLocalStorage
                ({ s with metaRecs := putF s.metaRecs keyCurrentId (jsOrJson ((Json.obj fields).getField keyCurrentId) Json.null) })).1 =
                { s with metaRecs := putF s.metaRecs keyCurrentId (jsOrJson ((Json.obj fields).getField keyCurrentId) Json.null) } := by
              rw [hm2]
              dsimp only
              rw [putF_idem]
            exact c9_fail_close s _ hm rfl hfix
          | bool b2 =>
            have hm : migrateFromLocalStorage s =
                ({ s with metaRecs := putF s.metaRecs keyCurrentId (jsOrJson ((Json.obj fields).getField keyCurrentId) Json.null) }, false) := by
              unfold migrateFromLocalStorage
              rw [hleg]
              dsimp only
              rw [if_neg hraw, hp]
              dsimp only
              rw [hAg]
            have hm2 : migrateFromLocalStorage
                ({ s with metaRecs := putF s.metaRecs keyCurrentId (jsOrJson ((Json.obj fields).getField keyCurrentId) Json.null) }) =
                ({ s with metaRecs := putF (putF s.metaRecs keyCurrentId (jsOrJson ((Json.obj fields).getField keyCurrentId) Json.null)) keyCurrentId (jsOrJson ((Json.obj fields).getField keyCurrentId) Json.null) }, false) := by
              unfold migrateFromLocalStorage
              dsimp only
              rw [hleg]
              dsimp only
              rw [if_neg hraw, hp]
              dsimp only
              rw [hAg]
            have hfix : (migrateFromLocalStorage
                ({ s with metaRecs := putF s.metaRecs keyCurrentId (jsOrJson ((Json.obj fields).getField keyCurrentId) Json.null) })).1 =
                { s with metaRecs := putF s.metaRecs keyCurrentId (jsOrJson ((Json.obj fields).getField keyCurrentId) Json.null) } := by
              rw [hm2]
              dsimp only
              rw [putF_idem]
            exact c9_fail_close s _ hm rfl hfix
          | num lex2 =>
            have hm : migrateFromLocalStorage s =
                ({ s with metaRecs := putF s.metaRecs keyCurrentId (jsOrJson ((Json.obj fields).getField keyCurrentId) Json.null) }, false) := by
              unfold migrateFromLocalStorage
              rw [hleg]
              dsimp only
              rw [if_neg hraw, hp]
              dsimp only
              rw [hAg]
            have hm2 : migrateFromLocalStorage
                ({ s with metaRecs := putF s.metaRecs keyCurrentId (jsOrJson ((Json.obj fields).getField keyCurrentId) Json.null) }) =
                ({ s with metaRecs := putF (putF s.metaRecs keyCurrentId (jsOrJson ((Json.obj fields).getField keyCurrentId) Json.null)) keyCurrentId (jsOrJson ((Json.obj fields).getField keyCurrentId) Json.null) }, false) := by
              unfold migrateFromLocalStorage
              dsimp only
              rw [hleg]
              dsimp only
              rw [if_neg hraw, hp]
              dsimp only
              rw [hAg]
            have hfix : (migrateFromLocalStorage
                ({ s with metaRecs := putF s.metaRecs keyCurrentId (jsOrJson ((Json.obj fields).getField keyCurrentId) Json.null) })).1 =
                { s with metaRecs := putF s.metaRecs keyCurrentId (jsOrJson ((Json.obj fields).getField keyCurrentId) Json.null) } := by
              rw [hm2]
              dsimp only
              rw [putF_idem]
            exact c9_fail_close s _ hm rfl hfix
